import Mathlib

/-!
The IBC client-type registry (`x/ibc/02-client/exported/exported.go`).

A shallow embedding of the `ClientType` registry and of its JSON
(de)serialisation, together with the part of Go's `encoding/json` and
`unicode/utf8` that `ClientType.MarshalJSON` and `ClientType.UnmarshalJSON`
call with a `string` value, and theorems about them.

The model of `encoding/json` follows the Go 1.13 sources: `Marshal` of a
string is `encodeState.string` with HTML escaping; `Unmarshal` first runs
`checkValid`, the scanner automaton of `scanner.go`, over the whole input, and
then dispatches on the first byte of the value. Error messages and offsets are
not modelled. Later Go versions add a nesting limit to the scanner and short
escapes for two control bytes; these are not modelled either.

Conventions.
* A Go `byte` is a natural number; the byte values are the naturals below 256.
  No definition below does arithmetic that can overflow a byte, and every
  theorem holds for all naturals, in particular for all byte values.
* A Go `string` or `[]byte` is a list of bytes; it need not be valid UTF-8.
* A Go `rune` that is known to be non-negative is a natural number.
* Bit operations on disjoint bit fields are written arithmetically:
  `x & 0x3F` is `x % 64`, `x << 6 | y` with `y < 64` is `x * 64 + y`,
  `x >> 4` is `x / 16`.
-/

namespace IBCClient

/-! ## Bytes and strings -/

/-- A Go `string` (equally a `[]byte`): a sequence of bytes, each byte a
natural number. -/
abbrev GoString := List Nat

/-! ## `unicode/utf8` and `unicode/utf16` (the functions `encoding/json` uses) -/

/-- The constant `utf8.RuneError`, U+FFFD. -/
def RuneError : Nat := 0xFFFD

/-- The constant `utf8.RuneSelf`: bytes below it are single-byte runes. -/
def RuneSelf : Nat := 0x80

/-- The size in bytes that the `first` table of `unicode/utf8` assigns to a
lead byte in `0xC2..0xF4`. -/
def leadSize (p0 : Nat) : Nat :=
  if p0 < 0xE0 then 2 else if p0 < 0xF0 then 3 else 4

/-- The accept range `(lo, hi)` for the second byte that the `first` and
`acceptRanges` tables of `unicode/utf8` assign to a lead byte. -/
def acceptRange (p0 : Nat) : Nat × Nat :=
  if p0 = 0xE0 then (0xA0, 0xBF)
  else if p0 = 0xED then (0x80, 0x9F)
  else if p0 = 0xF0 then (0x90, 0xBF)
  else if p0 = 0xF4 then (0x80, 0x8F)
  else (0x80, 0xBF)

/-- The function `utf8.DecodeRune` (and `utf8.DecodeRuneInString`): the first
rune of `p` and its width in bytes; `(RuneError, 0)` on empty input and
`(RuneError, 1)` on an invalid encoding. -/
def DecodeRune : List Nat → Nat × Nat
  | [] => (RuneError, 0)
  | p0 :: t =>
    if p0 < RuneSelf then (p0, 1)
    else if p0 < 0xC2 ∨ 0xF4 < p0 then (RuneError, 1)
    else
      match t with
      | [] => (RuneError, 1)
      | b1 :: t1 =>
        if b1 < (acceptRange p0).1 ∨ (acceptRange p0).2 < b1 then (RuneError, 1)
        else if leadSize p0 ≤ 2 then ((p0 % 32) * 64 + b1 % 64, 2)
        else
          match t1 with
          | [] => (RuneError, 1)
          | b2 :: t2 =>
            if b2 < 0x80 ∨ 0xBF < b2 then (RuneError, 1)
            else if leadSize p0 ≤ 3 then
              ((p0 % 16) * 4096 + (b1 % 64) * 64 + b2 % 64, 3)
            else
              match t2 with
              | [] => (RuneError, 1)
              | b3 :: _ =>
                if b3 < 0x80 ∨ 0xBF < b3 then (RuneError, 1)
                else
                  ((p0 % 8) * 262144 + (b1 % 64) * 4096 + (b2 % 64) * 64 + b3 % 64, 4)

/-- The three-byte encoding of a rune in `0x800..0xFFFF`. -/
def encode3 (r : Nat) : List Nat :=
  [0xE0 + r / 4096, 0x80 + (r / 64) % 64, 0x80 + r % 64]

/-- The function `utf8.EncodeRune` for a non-negative rune: the UTF-8
encoding of `r`, that of `RuneError` when `r` is a surrogate or is above
`utf8.MaxRune`. -/
def EncodeRune (r : Nat) : List Nat :=
  if r ≤ 0x7F then [r]
  else if r ≤ 0x7FF then [0xC0 + r / 64, 0x80 + r % 64]
  else if 0x10FFFF < r ∨ (0xD800 ≤ r ∧ r ≤ 0xDFFF) then encode3 RuneError
  else if r ≤ 0xFFFF then encode3 r
  else [0xF0 + r / 262144, 0x80 + (r / 4096) % 64, 0x80 + (r / 64) % 64, 0x80 + r % 64]

/-- The function `utf16.IsSurrogate`. -/
def IsSurrogate (r : Nat) : Bool := 0xD800 ≤ r && r < 0xE000

/-- The function `utf16.DecodeRune`; its second argument is `none` when the
caller passes the negative rune that `getu4` returns on failure. -/
def utf16DecodeRune (r1 : Nat) (r2 : Option Nat) : Nat :=
  match r2 with
  | some r2 =>
    if 0xD800 ≤ r1 ∧ r1 < 0xDC00 ∧ 0xDC00 ≤ r2 ∧ r2 < 0xE000 then
      (r1 - 0xD800) * 1024 + (r2 - 0xDC00) + 0x10000
    else RuneError
  | none => RuneError

/-- The condition under which `p0, b1, b2` is the encoding of a rune in three
bytes, as `utf8.DecodeRune` checks it. -/
def valid3 (p0 b1 b2 : Nat) : Prop :=
  0xE0 ≤ p0 ∧ p0 < 0xF0 ∧ 0x80 ≤ b1 ∧ b1 ≤ 0xBF ∧ (p0 = 0xE0 → 0xA0 ≤ b1) ∧
    (p0 = 0xED → b1 ≤ 0x9F) ∧ 0x80 ≤ b2 ∧ b2 ≤ 0xBF

/-- The condition under which `p0, b1, b2, b3` is the encoding of a rune in
four bytes, as `utf8.DecodeRune` checks it. -/
def valid4 (p0 b1 b2 b3 : Nat) : Prop :=
  0xF0 ≤ p0 ∧ p0 ≤ 0xF4 ∧ 0x80 ≤ b1 ∧ b1 ≤ 0xBF ∧ (p0 = 0xF0 → 0x90 ≤ b1) ∧
    (p0 = 0xF4 → b1 ≤ 0x8F) ∧ 0x80 ≤ b2 ∧ b2 ≤ 0xBF ∧ 0x80 ≤ b3 ∧ b3 ≤ 0xBF

/-! ## `encoding/json`: encoding a string (`encodeState.string`, `Marshal`) -/

/-- The byte `hex[n]` of the table `hex = "0123456789abcdef"`, for `n < 16`. -/
def hex (n : Nat) : Nat := if n < 10 then 48 + n else 87 + n

/-- The table `htmlSafeSet`: the ASCII bytes that are written to JSON as they
are when HTML escaping is on: `0x20..0x7F` without the double quote, `&`,
`<`, `>` and the backslash. -/
def htmlSafeSet (b : Nat) : Bool :=
  0x20 ≤ b && b < 0x80 && b != 0x22 && b != 0x26 && b != 0x3C && b != 0x3E && b != 0x5C

/-- The escape that `encodeState.string` writes for an ASCII byte outside
`htmlSafeSet`. -/
def escapeByte (b : Nat) : List Nat :=
  if b = 0x5C ∨ b = 0x22 then [0x5C, b]
  else if b = 0x0A then [0x5C, 0x6E]
  else if b = 0x0D then [0x5C, 0x72]
  else if b = 0x09 then [0x5C, 0x74]
  else [0x5C, 0x75, 0x30, 0x30, hex (b / 16), hex (b % 16)]

/-- The loop of `encodeState.string(s, escapeHTML = true)`, on the part of
the string not yet visited. The Go loop keeps the index `start` of the bytes
it has passed over and not yet written and copies them in runs; here every
byte or rune is written when the loop passes over it, which gives the same
output. The first argument bounds the number of iterations; each iteration
consumes at least one byte. -/
def stringLoop : Nat → GoString → List Nat
  | _, [] => []
  | 0, _ :: _ => []
  | fuel + 1, b :: rest =>
    if b < RuneSelf then
      if htmlSafeSet b then b :: stringLoop fuel rest
      else escapeByte b ++ stringLoop fuel rest
    else
      if (DecodeRune (b :: rest)).1 = RuneError ∧ (DecodeRune (b :: rest)).2 = 1 then
        [0x5C, 0x75, 0x66, 0x66, 0x66, 0x64] ++ stringLoop fuel rest
      else if (DecodeRune (b :: rest)).1 = 0x2028 ∨ (DecodeRune (b :: rest)).1 = 0x2029 then
        [0x5C, 0x75, 0x32, 0x30, 0x32, hex ((DecodeRune (b :: rest)).1 % 16)]
          ++ stringLoop fuel ((b :: rest).drop (DecodeRune (b :: rest)).2)
      else
        (b :: rest).take (DecodeRune (b :: rest)).2
          ++ stringLoop fuel ((b :: rest).drop (DecodeRune (b :: rest)).2)

/-- The method `encodeState.string(s, escapeHTML = true)`: the JSON string
literal for `s`. -/
def encodeState.string (s : GoString) : List Nat :=
  0x22 :: (stringLoop s.length s ++ [0x22])

/-- The errors of this development: those of `encoding/json` that decoding
into a `string` can report, and the one of `ClientType.UnmarshalJSON`.
Messages and offsets are not modelled, except for the string that the
invalid-client-type error quotes. -/
inductive GoError where
  /-- A `*json.SyntaxError` of `checkValid`. -/
  | SyntaxError
  /-- A `*json.UnmarshalTypeError` with the given `Value`. -/
  | UnmarshalTypeError (value : String)
  /-- The error `fmt.Errorf("invalid client type '%s'", s)`. -/
  | invalidClientType (s : GoString)
  /-- Any other error that `encoding/json` builds with `fmt.Errorf`. -/
  | other
  deriving DecidableEq, Repr

/-- The function `json.Marshal` applied to a Go `string`: the encoded bytes
and the `error`, which is always `nil` for a string. -/
def jsonMarshalString (s : GoString) : List Nat × Option GoError :=
  (encodeState.string s, none)

/-! ## `encoding/json`: the scanner (`scanner.go`) and `checkValid` -/

/-- The step functions of the JSON scanner, the values of the field
`scanner.step`. -/
inductive StepFn where
  | stateBeginValueOrEmpty | stateBeginValue | stateBeginStringOrEmpty
  | stateBeginString | stateEndValue | stateEndTop
  | stateInString | stateInStringEsc | stateInStringEscU | stateInStringEscU1
  | stateInStringEscU12 | stateInStringEscU123
  | stateNeg | state1 | state0 | stateDot | stateDot0 | stateE | stateESign | stateE0
  | stateT | stateTr | stateTru | stateF | stateFa | stateFal | stateFals
  | stateN | stateNu | stateNul | stateError
  deriving DecidableEq, Repr

/-- The values kept on the scanner's parse stack. -/
inductive ParseState where
  | parseObjectKey | parseObjectValue | parseArrayValue
  deriving DecidableEq, Repr

/-- The codes a scanner step returns. -/
inductive ScanCode where
  | scanContinue | scanBeginLiteral | scanBeginObject | scanObjectKey
  | scanObjectValue | scanEndObject | scanBeginArray | scanArrayValue
  | scanEndArray | scanSkipSpace | scanEnd | scanError
  deriving DecidableEq, Repr

/-- The struct `scanner`. The field `parseState` is the parse stack with its
top first (Go appends at the end of a slice); `err` records whether the Go
field `err` is non-nil. -/
structure scanner where
  step : StepFn
  endTop : Bool
  parseState : List ParseState
  err : Bool
  deriving DecidableEq, Repr

/-- The method `scanner.reset`. -/
def scanner.reset : scanner :=
  { step := .stateBeginValue, endTop := false, parseState := [], err := false }

/-- The method `scanner.error`: records a syntax error and stops the scanner. -/
def scanner.error (s : scanner) : scanner × ScanCode :=
  ({ s with step := .stateError, err := true }, .scanError)

/-- The method `scanner.pushParseState`. -/
def scanner.pushParseState (s : scanner) (p : ParseState) : scanner :=
  { s with parseState := p :: s.parseState }

/-- The method `scanner.popParseState`. -/
def scanner.popParseState (s : scanner) : scanner :=
  match s.parseState.tail with
  | [] => { s with parseState := [], step := .stateEndTop, endTop := true }
  | ps => { s with parseState := ps, step := .stateEndValue }

/-- The assignment `s.parseState[n-1] = p` to the top of the parse stack. The
scanner makes it only in states it enters after a push; on an empty stack,
where Go would fail on the index, the stack is left as it is. -/
def scanner.setTop (s : scanner) (p : ParseState) : scanner :=
  match s.parseState with
  | [] => s
  | _ :: ps => { s with parseState := p :: ps }

/-- The function `isSpace`. -/
def isSpace (c : Nat) : Bool := c = 0x20 || c = 0x09 || c = 0x0D || c = 0x0A

/-- Whether `c` is an ASCII decimal digit. -/
def isDigit (c : Nat) : Bool := 0x30 ≤ c && c ≤ 0x39

/-- Whether `c` is a hexadecimal digit, in either case. -/
def isHexDigit (c : Nat) : Bool :=
  (0x30 ≤ c && c ≤ 0x39) || (0x61 ≤ c && c ≤ 0x66) || (0x41 ≤ c && c ≤ 0x46)

/-- The function `stateEndTop`: after the top-level value only space may
follow. On another byte it records the error, and still returns `scanEnd`. -/
def stateEndTop (s : scanner) (c : Nat) : scanner × ScanCode :=
  if !isSpace c then ((s.error).1, .scanEnd) else (s, .scanEnd)

/-- The function `stateEndValue`: the state after a value has been completed,
such as after reading `{}` or `true`. -/
def stateEndValue (s : scanner) (c : Nat) : scanner × ScanCode :=
  match s.parseState with
  | [] => stateEndTop { s with step := .stateEndTop, endTop := true } c
  | ps :: _ =>
    if isSpace c then ({ s with step := .stateEndValue }, .scanSkipSpace)
    else
      match ps with
      | .parseObjectKey =>
        if c = 0x3A then
          ({ s.setTop .parseObjectValue with step := .stateBeginValue }, .scanObjectKey)
        else s.error
      | .parseObjectValue =>
        if c = 0x2C then
          ({ s.setTop .parseObjectKey with step := .stateBeginString }, .scanObjectValue)
        else if c = 0x7D then (s.popParseState, .scanEndObject)
        else s.error
      | .parseArrayValue =>
        if c = 0x2C then ({ s with step := .stateBeginValue }, .scanArrayValue)
        else if c = 0x5D then (s.popParseState, .scanEndArray)
        else s.error

/-- The function `stateBeginValue`: the state at the beginning of the input
and of every value. -/
def stateBeginValue (s : scanner) (c : Nat) : scanner × ScanCode :=
  if isSpace c then (s, .scanSkipSpace)
  else if c = 0x7B then
    ({ s with step := .stateBeginStringOrEmpty }.pushParseState .parseObjectKey,
      .scanBeginObject)
  else if c = 0x5B then
    ({ s with step := .stateBeginValueOrEmpty }.pushParseState .parseArrayValue,
      .scanBeginArray)
  else if c = 0x22 then ({ s with step := .stateInString }, .scanBeginLiteral)
  else if c = 0x2D then ({ s with step := .stateNeg }, .scanBeginLiteral)
  else if c = 0x30 then ({ s with step := .state0 }, .scanBeginLiteral)
  else if c = 0x74 then ({ s with step := .stateT }, .scanBeginLiteral)
  else if c = 0x66 then ({ s with step := .stateF }, .scanBeginLiteral)
  else if c = 0x6E then ({ s with step := .stateN }, .scanBeginLiteral)
  else if 0x31 ≤ c ∧ c ≤ 0x39 then ({ s with step := .state1 }, .scanBeginLiteral)
  else s.error

/-- The function `stateBeginValueOrEmpty`: the state after reading `[`. -/
def stateBeginValueOrEmpty (s : scanner) (c : Nat) : scanner × ScanCode :=
  if isSpace c then (s, .scanSkipSpace)
  else if c = 0x5D then stateEndValue s c
  else stateBeginValue s c

/-- The function `stateBeginString`: the state after reading `{"key": value,`. -/
def stateBeginString (s : scanner) (c : Nat) : scanner × ScanCode :=
  if isSpace c then (s, .scanSkipSpace)
  else if c = 0x22 then ({ s with step := .stateInString }, .scanBeginLiteral)
  else s.error

/-- The function `stateBeginStringOrEmpty`: the state after reading `{`. -/
def stateBeginStringOrEmpty (s : scanner) (c : Nat) : scanner × ScanCode :=
  if isSpace c then (s, .scanSkipSpace)
  else if c = 0x7D then stateEndValue (s.setTop .parseObjectValue) c
  else stateBeginString s c

/-- The function `stateInString`: the state after reading a double quote. -/
def stateInString (s : scanner) (c : Nat) : scanner × ScanCode :=
  if c = 0x22 then ({ s with step := .stateEndValue }, .scanContinue)
  else if c = 0x5C then ({ s with step := .stateInStringEsc }, .scanContinue)
  else if c < 0x20 then s.error
  else (s, .scanContinue)

/-- The function `stateInStringEsc`: the state after a backslash in a string. -/
def stateInStringEsc (s : scanner) (c : Nat) : scanner × ScanCode :=
  if c = 0x62 ∨ c = 0x66 ∨ c = 0x6E ∨ c = 0x72 ∨ c = 0x74 ∨ c = 0x5C ∨ c = 0x2F ∨ c = 0x22 then
    ({ s with step := .stateInString }, .scanContinue)
  else if c = 0x75 then ({ s with step := .stateInStringEscU }, .scanContinue)
  else s.error

/-- The shape shared by the scanner states that accept one byte of a fixed
class and go to one next state, and fail on every other byte. -/
def expect (ok : Bool) (next : StepFn) (s : scanner) : scanner × ScanCode :=
  if ok then ({ s with step := next }, .scanContinue) else s.error

/-- The function `state0`: the state after reading `0` in a number. -/
def state0 (s : scanner) (c : Nat) : scanner × ScanCode :=
  if c = 0x2E then ({ s with step := .stateDot }, .scanContinue)
  else if c = 0x65 ∨ c = 0x45 then ({ s with step := .stateE }, .scanContinue)
  else stateEndValue s c

/-- The function `state1`: the state after reading a non-zero integer. -/
def state1 (s : scanner) (c : Nat) : scanner × ScanCode :=
  if isDigit c then ({ s with step := .state1 }, .scanContinue) else state0 s c

/-- The function `stateDot0`: the state after reading digits behind the
decimal point. -/
def stateDot0 (s : scanner) (c : Nat) : scanner × ScanCode :=
  if isDigit c then (s, .scanContinue)
  else if c = 0x65 ∨ c = 0x45 then ({ s with step := .stateE }, .scanContinue)
  else stateEndValue s c

/-- The function `stateESign`: the state after the sign of an exponent. -/
def stateESign (s : scanner) (c : Nat) : scanner × ScanCode :=
  expect (isDigit c) .stateE0 s

/-- The function `stateE`: the state after reading `e` or `E` in a number. -/
def stateE (s : scanner) (c : Nat) : scanner × ScanCode :=
  if c = 0x2B ∨ c = 0x2D then ({ s with step := .stateESign }, .scanContinue)
  else stateESign s c

/-- The function `stateE0`: the state after reading digits of an exponent. -/
def stateE0 (s : scanner) (c : Nat) : scanner × ScanCode :=
  if isDigit c then (s, .scanContinue) else stateEndValue s c

/-- The call `s.step(s, c)`: the step function that the field `step` holds,
applied to the scanner and one byte. -/
def scanner.run (s : scanner) (c : Nat) : scanner × ScanCode :=
  match s.step with
  | .stateBeginValueOrEmpty => stateBeginValueOrEmpty s c
  | .stateBeginValue => stateBeginValue s c
  | .stateBeginStringOrEmpty => stateBeginStringOrEmpty s c
  | .stateBeginString => stateBeginString s c
  | .stateEndValue => stateEndValue s c
  | .stateEndTop => stateEndTop s c
  | .stateInString => stateInString s c
  | .stateInStringEsc => stateInStringEsc s c
  | .stateInStringEscU => expect (isHexDigit c) .stateInStringEscU1 s
  | .stateInStringEscU1 => expect (isHexDigit c) .stateInStringEscU12 s
  | .stateInStringEscU12 => expect (isHexDigit c) .stateInStringEscU123 s
  | .stateInStringEscU123 => expect (isHexDigit c) .stateInString s
  | .stateNeg =>
    if c = 0x30 then ({ s with step := .state0 }, .scanContinue)
    else if 0x31 ≤ c ∧ c ≤ 0x39 then ({ s with step := .state1 }, .scanContinue)
    else s.error
  | .state1 => state1 s c
  | .state0 => state0 s c
  | .stateDot => expect (isDigit c) .stateDot0 s
  | .stateDot0 => stateDot0 s c
  | .stateE => stateE s c
  | .stateESign => stateESign s c
  | .stateE0 => stateE0 s c
  | .stateT => expect (c = 0x72) .stateTr s
  | .stateTr => expect (c = 0x75) .stateTru s
  | .stateTru => expect (c = 0x65) .stateEndValue s
  | .stateF => expect (c = 0x61) .stateFa s
  | .stateFa => expect (c = 0x6C) .stateFal s
  | .stateFal => expect (c = 0x73) .stateFals s
  | .stateFals => expect (c = 0x65) .stateEndValue s
  | .stateN => expect (c = 0x75) .stateNu s
  | .stateNu => expect (c = 0x6C) .stateNul s
  | .stateNul => expect (c = 0x6C) .stateEndValue s
  | .stateError => (s, .scanError)

/-- The method `scanner.eof`: tells the scanner that the input has ended. -/
def scanner.eof (s : scanner) : scanner × ScanCode :=
  if s.err then (s, .scanError)
  else if s.endTop then (s, .scanEnd)
  else
    if ((s.run 0x20).1).endTop then ((s.run 0x20).1, .scanEnd)
    else ({ (s.run 0x20).1 with err := true }, .scanError)

/-- The loop of `checkValid`: feeds the bytes to the scanner and stops at the
first step that returns `scanError`; at the end of the input it asks
`scanner.eof`. The result is whether the input is valid. -/
def checkValidLoop (s : scanner) : List Nat → Bool
  | [] => (s.eof).2 ≠ .scanError
  | c :: rest =>
    if (s.run c).2 = .scanError then false else checkValidLoop (s.run c).1 rest

/-- The function `checkValid`: whether `data` is one JSON value, with
optional space around it. `true` stands for a `nil` error, `false` for a
`*SyntaxError`. -/
def checkValid (data : List Nat) : Bool :=
  checkValidLoop scanner.reset data

/-! ## `encoding/json`: decoding into a `string` (`decode.go`) -/

/-- The outcome of a Go call: it returns a value, or it panics. -/
inductive Outcome (α : Type) where
  | returned (a : α)
  | panicked
  deriving DecidableEq, Repr

/-- The value of one hexadecimal digit, as computed in `getu4`. -/
def hexVal (c : Nat) : Option Nat :=
  if 0x30 ≤ c ∧ c ≤ 0x39 then some (c - 0x30)
  else if 0x61 ≤ c ∧ c ≤ 0x66 then some (c - 0x61 + 10)
  else if 0x41 ≤ c ∧ c ≤ 0x46 then some (c - 0x41 + 10)
  else none

/-- The function `getu4`: the rune of a backslash-u escape with four
hexadecimal digits at the beginning of `s`; `none` stands for the result
`-1`. -/
def getu4 (s : List Nat) : Option Nat :=
  match s with
  | e :: u :: a :: b :: c :: d :: _ =>
    if e ≠ 0x5C ∨ u ≠ 0x75 then none
    else
      match hexVal a, hexVal b, hexVal c, hexVal d with
      | some a, some b, some c, some d => some (((a * 16 + b) * 16 + c) * 16 + d)
      | _, _, _, _ => none
  | _ => none

/-- The first loop of `unquoteBytes`: the number of leading bytes of `s` that
need no unquoting (no backslash, quote, control character or invalid UTF-8).
The first argument bounds the number of iterations. -/
def unquoteScan : Nat → List Nat → Nat
  | _, [] => 0
  | 0, _ :: _ => 0
  | fuel + 1, c :: rest =>
    if c = 0x5C ∨ c = 0x22 ∨ c < 0x20 then 0
    else if c < RuneSelf then 1 + unquoteScan fuel rest
    else if (DecodeRune (c :: rest)).1 = RuneError ∧ (DecodeRune (c :: rest)).2 = 1 then 0
    else
      (DecodeRune (c :: rest)).2
        + unquoteScan fuel ((c :: rest).drop (DecodeRune (c :: rest)).2)

/-- The case `u` of the escape switch in `unquoteBytes`: `s` begins with the
backslash of the escape and `k` is the loop on the bytes that remain. A
surrogate that begins a valid pair is decoded with the escape after it;
any other surrogate becomes U+FFFD. -/
def unquoteU (k : List Nat → Option (List Nat)) (s : List Nat) : Option (List Nat) :=
  match getu4 s with
  | none => none
  | some rr =>
    if IsSurrogate rr then
      if utf16DecodeRune rr (getu4 (s.drop 6)) ≠ RuneError then
        (k (s.drop 12)).map (EncodeRune (utf16DecodeRune rr (getu4 (s.drop 6))) ++ ·)
      else (k (s.drop 6)).map (EncodeRune RuneError ++ ·)
    else (k (s.drop 6)).map (EncodeRune rr ++ ·)

/-- One iteration of the second loop of `unquoteBytes`, at the byte `c`
followed by `rest`; `k` is the loop on the bytes that remain after the
iteration. The result is the unquoted bytes, or `none` where the Go loop
returns `ok = false`. Go writes into a buffer at index `w`; here the bytes of
the iteration are put in front of the result for the rest. -/
def unquoteStep (k : List Nat → Option (List Nat)) (c : Nat) (rest : List Nat) :
    Option (List Nat) :=
  if c = 0x5C then
    match rest with
    | [] => none
    | e :: rest1 =>
      if e = 0x22 ∨ e = 0x5C ∨ e = 0x2F ∨ e = 0x27 then (k rest1).map (e :: ·)
      else if e = 0x62 then (k rest1).map (0x08 :: ·)
      else if e = 0x66 then (k rest1).map (0x0C :: ·)
      else if e = 0x6E then (k rest1).map (0x0A :: ·)
      else if e = 0x72 then (k rest1).map (0x0D :: ·)
      else if e = 0x74 then (k rest1).map (0x09 :: ·)
      else if e = 0x75 then unquoteU k (c :: rest)
      else none
  else if c = 0x22 ∨ c < 0x20 then none
  else if c < RuneSelf then (k rest).map (c :: ·)
  else
    (k ((c :: rest).drop (DecodeRune (c :: rest)).2)).map
      (EncodeRune (DecodeRune (c :: rest)).1 ++ ·)

/-- The second loop of `unquoteBytes`, on the bytes not yet read. The first
argument bounds the number of iterations; each iteration consumes at least
one byte. -/
def unquoteLoop : Nat → List Nat → Option (List Nat)
  | _, [] => some []
  | 0, _ :: _ => none
  | fuel + 1, c :: rest => unquoteStep (unquoteLoop fuel) c rest

/-- The function `unquoteBytes`: the string that the JSON string literal `s`
(with its quotes) denotes, `none` where Go returns `ok = false`. -/
def unquoteBytes (s : List Nat) : Option (List Nat) :=
  if s.length < 2 ∨ s.head? ≠ some 0x22 ∨ s.getLast? ≠ some 0x22 then none
  else
    if unquoteScan ((s.drop 1).dropLast).length ((s.drop 1).dropLast)
        = ((s.drop 1).dropLast).length then
      some ((s.drop 1).dropLast)
    else
      (unquoteLoop ((s.drop 1).dropLast).length
          (((s.drop 1).dropLast).drop
            (unquoteScan ((s.drop 1).dropLast).length ((s.drop 1).dropLast)))).map
        (((s.drop 1).dropLast).take
          (unquoteScan ((s.drop 1).dropLast).length ((s.drop 1).dropLast)) ++ ·)

/-- The call `d.scanWhile(scanSkipSpace)` at the start of
`decodeState.unmarshal`: runs the scanner over the leading space. The result
is the code of the first step that is not `scanSkipSpace` and the input from
the byte of that step on (`d.data[d.readIndex():]`); at the end of the input
the code is that of `scanner.eof`. -/
def scanWhileSkipSpace (s : scanner) : List Nat → ScanCode × List Nat
  | [] => ((s.eof).2, [])
  | c :: rest =>
    if (s.run c).2 ≠ .scanSkipSpace then ((s.run c).2, c :: rest)
    else scanWhileSkipSpace (s.run c).1 rest

/-- The string case of `decodeState.rescanLiteral`, on the bytes after the
opening quote: the bytes up to and with the closing quote. -/
def rescanString : List Nat → List Nat
  | [] => []
  | c :: rest =>
    if c = 0x22 then [c]
    else if c = 0x5C then
      match rest with
      | [] => [c]
      | e :: rest1 => c :: e :: rescanString rest1
    else c :: rescanString rest

/-- The bytes `d.data[start:d.readIndex()]` of the literal that
`decodeState.value` hands to `literalStore`, as `decodeState.rescanLiteral`
delimits them; `data` begins with the first byte of the literal. -/
def rescanLiteral (data : List Nat) : List Nat :=
  match data with
  | [] => []
  | c :: rest =>
    if c = 0x22 then c :: rescanString rest
    else if isDigit c ∨ c = 0x2D then
      c :: rest.takeWhile
        (fun b => isDigit b || b = 0x2E || b = 0x65 || b = 0x45 || b = 0x2B || b = 0x2D)
    else if c = 0x74 then c :: rest.take 3
    else if c = 0x66 then c :: rest.take 4
    else if c = 0x6E then c :: rest.take 3
    else [c]

/-- The method `decodeState.literalStore(item, v, false)` for `v` a `string`
variable holding `s0`: the error that the decoder saves and the new value of
the variable. A JSON `null` leaves a string as it is; a boolean or a number
is a type error; a string literal is unquoted and stored. -/
def literalStore (item : List Nat) (s0 : GoString) : Outcome (Option GoError × GoString) :=
  match item with
  | [] => .returned (some .other, s0)
  | c :: _ =>
    if c = 0x6E then .returned (none, s0)
    else if c = 0x74 ∨ c = 0x66 then .returned (some (.UnmarshalTypeError "bool"), s0)
    else if c = 0x22 then
      match unquoteBytes item with
      | none => .panicked
      | some s => .returned (none, s)
    else if c ≠ 0x2D ∧ (c < 0x30 ∨ 0x39 < c) then .panicked
    else .returned (some (.UnmarshalTypeError "number"), s0)

/-- The call `json.Unmarshal(data, &s)` for a `string` variable `s` holding
`s0`: the returned `error` and the value of `s` afterwards. `checkValid`
rejects input that is not one JSON value; then `decodeState.value`
dispatches on the code of the first byte of the value: an array or an object
cannot be stored in a string, a literal goes to `literalStore`. The second
pass of the decoder over an array or an object, which stores nothing, is not
modelled. -/
def jsonUnmarshalString (data : List Nat) (s0 : GoString) :
    Outcome (Option GoError × GoString) :=
  if !checkValid data then .returned (some .SyntaxError, s0)
  else
    match scanWhileSkipSpace scanner.reset data with
    | (.scanBeginArray, _) => .returned (some (.UnmarshalTypeError "array"), s0)
    | (.scanBeginObject, _) => .returned (some (.UnmarshalTypeError "object"), s0)
    | (.scanBeginLiteral, d) => literalStore (rescanLiteral d) s0
    | _ => .panicked

/-! ## The client-type registry (`exported.go`) -/

/-- The type `ClientType`, a `byte`. -/
abbrev ClientType := Nat

/-- The constant `Tendermint ClientType = iota + 1`, the first constant of its
block, where `iota` is 0. -/
def Tendermint : ClientType := 0 + 1

/-- The constant `ClientTypeTendermint`, the string `tendermint`. -/
def ClientTypeTendermint : GoString :=
  [0x74, 0x65, 0x6E, 0x64, 0x65, 0x72, 0x6D, 0x69, 0x6E, 0x74]

/-- The method `ClientType.String`. -/
def ClientType.String (ct : ClientType) : GoString :=
  if ct = Tendermint then ClientTypeTendermint else []

/-- The method `ClientType.MarshalJSON`: the bytes and the `error`. -/
def ClientType.MarshalJSON (ct : ClientType) : List Nat × Option GoError :=
  jsonMarshalString (ClientType.String ct)

/-- The function `ClientTypeFromString`. -/
def ClientTypeFromString (clientType : GoString) : ClientType :=
  if clientType = ClientTypeTendermint then Tendermint else 0

/-- The method `(*ClientType).UnmarshalJSON`, on a target holding `ct`: the
returned `error` and the value of the target afterwards. -/
def ClientType.UnmarshalJSON (ct : ClientType) (data : List Nat) :
    Outcome (Option GoError × ClientType) :=
  match jsonUnmarshalString data [] with
  | .panicked => .panicked
  | .returned (some err, _) => .returned (some err, ct)
  | .returned (none, s) =>
    if ClientTypeFromString s = 0 then .returned (some (.invalidClientType s), ct)
    else .returned (none, ClientTypeFromString s)

/-- The registered client types: the constants of the block `available client
types`. -/
def registeredTypes : List ClientType := [Tendermint]

/-- The first byte of the JSON value in `data`: the first byte that is not
JSON space, if there is one. -/
def firstValueByte (data : List Nat) : Option Nat :=
  (data.dropWhile isSpace).head?

/-- The string that `data` denotes when `data` is a JSON string: `data` is
one JSON value, the value begins with a double quote, and the literal
unquotes to the string. `none` when `data` is not a JSON string. -/
def jsonStringValue (data : List Nat) : Option GoString :=
  if checkValid data then
    match data.dropWhile isSpace with
    | [] => none
    | c :: rest => if c = 0x22 then unquoteBytes (c :: rescanString rest) else none
  else none

/-- The scanner inside a string literal at top level: the state after the
opening quote of a JSON value that is a string. -/
def inString : scanner :=
  { step := .stateInString, endTop := false, parseState := [], err := false }

/-- The string that a Go string is coerced to on its way through JSON: every
byte that is not part of a valid UTF-8 encoding is replaced by the encoding of
U+FFFD, every valid rune is kept. The first argument bounds the number of
runes. -/
def coerceUTF8 : Nat → GoString → GoString
  | _, [] => []
  | 0, _ :: _ => []
  | fuel + 1, b :: rest =>
    if b < RuneSelf then b :: coerceUTF8 fuel rest
    else
      EncodeRune (DecodeRune (b :: rest)).1
        ++ coerceUTF8 fuel ((b :: rest).drop (DecodeRune (b :: rest)).2)

/-! ## The verification contract of `ClientState` -/

/-- Modelled from the spec: the errors of the verification operations
(section 7); the interface `ClientState` only declares that the operations
return an `error`. -/
inductive VerifyError where
  | ClientFrozen
  | ConsensusStateNotFound (height : Nat)
  | ProofVerificationFailed
  deriving DecidableEq, Repr

/-- Modelled from the spec: the record behind the interface `ClientState`
(section 3), whose accessors `GetID`, `ClientType`, `GetSequence` and
`IsFrozen` the interface declares; no implementation is in the source. -/
structure ClientStateRecord where
  id : GoString
  type : ClientType
  sequence : Nat
  frozen : Bool
  deriving DecidableEq, Repr

/-- The accessor `IsFrozen` of the interface `ClientState`, on the record. -/
def ClientStateRecord.IsFrozen (cs : ClientStateRecord) : Bool := cs.frozen

/-- Modelled from the spec: the snapshot behind the interface
`ConsensusState` (section 3), with the commitment root as bytes. -/
structure ConsensusStateRecord where
  type : ClientType
  root : List Nat
  deriving DecidableEq, Repr

/-- Modelled from the spec: the injected proof-verifier capability
(section 6). -/
structure ProofVerifier where
  verifyMembership : List Nat → List Nat → List Nat → List Nat → Bool
  verifyNonMembership : List Nat → List Nat → List Nat → Bool

/-- Modelled from the spec: the fact-specific path components of the
verification operations (section 4.3), one constructor for each method that
the interface `ClientState` declares. -/
inductive Fact where
  | clientConsensusState (clientID : GoString)
  | connectionState (connectionID : GoString)
  | channelState (portID channelID : GoString)
  | packetCommitment (portID channelID : GoString) (sequence : Nat)
  | packetAcknowledgement (portID channelID : GoString) (sequence : Nat)
  | packetAcknowledgementAbsence (portID channelID : GoString) (sequence : Nat)
  | nextSequenceRecv (portID channelID : GoString)
  deriving DecidableEq, Repr

/-- Modelled from the spec: what a verification operation runs in: the
height-indexed store of consensus states, the proof verifier, and the
construction of the canonical key from the path prefix and the path
components, which the spec fixes no further. -/
structure VerifyEnv where
  consensusStates : Nat → Option ConsensusStateRecord
  verifier : ProofVerifier
  key : List Nat → Fact → List Nat

/-- Modelled from the spec: the algorithm that all verification operations
share (section 4.3, steps 1 to 5); the implementations of the interface
`ClientState` are not in the source. The expected value is `none` for the
absence check, which asks for a non-membership proof. -/
def verify (env : VerifyEnv) (cs : ClientStateRecord) (height : Nat) (pfx proof : List Nat)
    (fact : Fact) (value : Option (List Nat)) : Except VerifyError Unit :=
  if cs.IsFrozen then .error .ClientFrozen
  else
    match env.consensusStates height with
    | none => .error (.ConsensusStateNotFound height)
    | some consensusState =>
      match value with
      | some v =>
        if env.verifier.verifyMembership consensusState.root (env.key pfx fact) v proof then
          .ok ()
        else .error .ProofVerificationFailed
      | none =>
        if env.verifier.verifyNonMembership consensusState.root (env.key pfx fact) proof then
          .ok ()
        else .error .ProofVerificationFailed

/-- Modelled from the spec: `VerifyClientConsensusState`, the shared
algorithm on the consensus state that the other chain stores for the client;
the expected value is the root of the claimed consensus state. -/
def VerifyClientConsensusState (env : VerifyEnv) (cs : ClientStateRecord) (height : Nat)
    (pfx proof : List Nat) (clientID : GoString) (consensusState : ConsensusStateRecord) :
    Except VerifyError Unit :=
  verify env cs height pfx proof (.clientConsensusState clientID) (some consensusState.root)

/-- Modelled from the spec: `VerifyConnectionState`; the spec takes the
expected connection end, which the source has commented out, as required. -/
def VerifyConnectionState (env : VerifyEnv) (cs : ClientStateRecord) (height : Nat)
    (pfx proof : List Nat) (connectionID : GoString) (connectionEnd : List Nat) :
    Except VerifyError Unit :=
  verify env cs height pfx proof (.connectionState connectionID) (some connectionEnd)

/-- Modelled from the spec: `VerifyChannelState`; the spec takes the expected
channel end, which the source has commented out, as required. -/
def VerifyChannelState (env : VerifyEnv) (cs : ClientStateRecord) (height : Nat)
    (pfx proof : List Nat) (portID channelID : GoString) (channelEnd : List Nat) :
    Except VerifyError Unit :=
  verify env cs height pfx proof (.channelState portID channelID) (some channelEnd)

/-- Modelled from the spec: `VerifyPacketCommitment`. -/
def VerifyPacketCommitment (env : VerifyEnv) (cs : ClientStateRecord) (height : Nat)
    (pfx proof : List Nat) (portID channelID : GoString) (sequence : Nat)
    (commitmentBytes : List Nat) : Except VerifyError Unit :=
  verify env cs height pfx proof (.packetCommitment portID channelID sequence)
    (some commitmentBytes)

/-- Modelled from the spec: `VerifyPacketAcknowledgement`. -/
def VerifyPacketAcknowledgement (env : VerifyEnv) (cs : ClientStateRecord) (height : Nat)
    (pfx proof : List Nat) (portID channelID : GoString) (sequence : Nat)
    (acknowledgement : List Nat) : Except VerifyError Unit :=
  verify env cs height pfx proof (.packetAcknowledgement portID channelID sequence)
    (some acknowledgement)

/-- Modelled from the spec: `VerifyPacketAcknowledgementAbsence`, the
dedicated absence check, which has no expected value. -/
def VerifyPacketAcknowledgementAbsence (env : VerifyEnv) (cs : ClientStateRecord)
    (height : Nat) (pfx proof : List Nat) (portID channelID : GoString) (sequence : Nat) :
    Except VerifyError Unit :=
  verify env cs height pfx proof (.packetAcknowledgementAbsence portID channelID sequence) none

/-- Modelled from the spec: `VerifyNextSequenceRecv`; the expected value is
the next sequence number, here as the byte list that `encodeSeq` gives. -/
def VerifyNextSequenceRecv (env : VerifyEnv) (cs : ClientStateRecord) (height : Nat)
    (pfx proof : List Nat) (portID channelID : GoString) (nextSequenceRecv : Nat)
    (encodeSeq : Nat → List Nat) : Except VerifyError Unit :=
  verify env cs height pfx proof (.nextSequenceRecv portID channelID)
    (some (encodeSeq nextSequenceRecv))

/-- A proof verifier that accepts every proof. -/
def acceptAll : ProofVerifier :=
  { verifyMembership := fun _ _ _ _ => true, verifyNonMembership := fun _ _ _ => true }

/-- An environment with a consensus state at every height, in which every
proof verifies. -/
def acceptingEnv : VerifyEnv :=
  { consensusStates := fun _ => some { type := Tendermint, root := [1] },
    verifier := acceptAll,
    key := fun pfx _ => pfx }

/-- A frozen Tendermint client at sequence 10. -/
def frozenClient : ClientStateRecord :=
  { id := [0x63], type := Tendermint, sequence := 10, frozen := true }

/-! ## Facts about `utf8.DecodeRune` and `utf8.EncodeRune` -/

theorem acceptRange_bounds (p0 : Nat) :
    0x80 ≤ (acceptRange p0).1 ∧ (acceptRange p0).2 ≤ 0xBF := by
  unfold acceptRange
  split_ifs <;> simp

/-- A lead byte in `0xC2..0xDF` and a continuation byte decode as a rune of
two bytes, whatever follows. -/
theorem DecodeRune_two (p0 b1 : Nat) (X : List Nat) (h1 : 0xC2 ≤ p0) (h2 : p0 < 0xE0)
    (h3 : 0x80 ≤ b1) (h4 : b1 ≤ 0xBF) :
    DecodeRune (p0 :: b1 :: X) = ((p0 % 32) * 64 + b1 % 64, 2) := by
  have ha : ¬ (b1 < (acceptRange p0).1 ∨ (acceptRange p0).2 < b1) := by
    unfold acceptRange
    split_ifs <;> simp <;> omega
  have hl : leadSize p0 ≤ 2 := by
    unfold leadSize
    rw [if_pos h2]
  simp only [DecodeRune]
  rw [if_neg (by unfold RuneSelf; omega), if_neg (by omega)]
  simp only [if_neg ha, if_pos hl]

/-- Three bytes that satisfy `valid3` decode as a rune of three bytes,
whatever follows. -/
theorem DecodeRune_three (p0 b1 b2 : Nat) (X : List Nat) (h : valid3 p0 b1 b2) :
    DecodeRune (p0 :: b1 :: b2 :: X) = ((p0 % 16) * 4096 + (b1 % 64) * 64 + b2 % 64, 3) := by
  obtain ⟨h1, h2, h3, h4, h5, h6, h7, h8⟩ := h
  have ha : ¬ (b1 < (acceptRange p0).1 ∨ (acceptRange p0).2 < b1) := by
    unfold acceptRange
    split_ifs <;> simp <;> omega
  have hl : ¬ leadSize p0 ≤ 2 := by
    unfold leadSize
    split_ifs <;> omega
  have hl3 : leadSize p0 ≤ 3 := by
    unfold leadSize
    split_ifs <;> omega
  simp only [DecodeRune]
  rw [if_neg (by unfold RuneSelf; omega), if_neg (by omega)]
  simp only [if_neg ha, if_neg hl, if_pos hl3]
  rw [if_neg (by omega)]

/-- Four bytes that satisfy `valid4` decode as a rune of four bytes,
whatever follows. -/
theorem DecodeRune_four (p0 b1 b2 b3 : Nat) (X : List Nat) (h : valid4 p0 b1 b2 b3) :
    DecodeRune (p0 :: b1 :: b2 :: b3 :: X) =
      ((p0 % 8) * 262144 + (b1 % 64) * 4096 + (b2 % 64) * 64 + b3 % 64, 4) := by
  obtain ⟨h1, h2, h3, h4, h5, h6, h7, h8, h9, h10⟩ := h
  have ha : ¬ (b1 < (acceptRange p0).1 ∨ (acceptRange p0).2 < b1) := by
    unfold acceptRange
    split_ifs <;> simp <;> omega
  have hl : ¬ leadSize p0 ≤ 2 := by
    unfold leadSize
    split_ifs <;> omega
  have hl3 : ¬ leadSize p0 ≤ 3 := by
    unfold leadSize
    split_ifs <;> omega
  simp only [DecodeRune]
  rw [if_neg (by unfold RuneSelf; omega), if_neg (by omega)]
  simp only [if_neg ha, if_neg hl, if_neg hl3]
  rw [if_neg (by omega), if_neg (by omega)]

/-- On a lead byte that is not ASCII, `DecodeRune` either fails with width 1
or the input begins with a valid encoding of two, three or four bytes. -/
theorem DecodeRune_shape (p0 : Nat) (t : List Nat) (h0 : ¬ p0 < RuneSelf) :
    DecodeRune (p0 :: t) = (RuneError, 1) ∨
    (∃ b1 t1, t = b1 :: t1 ∧ 0xC2 ≤ p0 ∧ p0 < 0xE0 ∧ 0x80 ≤ b1 ∧ b1 ≤ 0xBF) ∨
    (∃ b1 b2 t2, t = b1 :: b2 :: t2 ∧ valid3 p0 b1 b2) ∨
    (∃ b1 b2 b3 t3, t = b1 :: b2 :: b3 :: t3 ∧ valid4 p0 b1 b2 b3) := by
  simp only [DecodeRune]
  rw [if_neg h0]
  by_cases hx : p0 < 0xC2 ∨ 0xF4 < p0
  · left; rw [if_pos hx]
  rw [if_neg hx]
  rcases t with _ | ⟨b1, t1⟩
  · left; rfl
  by_cases ha : b1 < (acceptRange p0).1 ∨ (acceptRange p0).2 < b1
  · left; simp only [if_pos ha]
  simp only [if_neg ha]
  have hb := acceptRange_bounds p0
  by_cases hl : leadSize p0 ≤ 2
  · right; left
    refine ⟨b1, t1, rfl, by omega, ?_, by omega, by omega⟩
    unfold leadSize at hl
    split_ifs at hl <;> omega
  simp only [if_neg hl]
  rcases t1 with _ | ⟨b2, t2⟩
  · left; rfl
  by_cases hb2 : b2 < 0x80 ∨ 0xBF < b2
  · left; simp only [if_pos hb2]
  simp only [if_neg hb2]
  have hacc : (p0 = 0xE0 → 0xA0 ≤ b1) ∧ (p0 = 0xED → b1 ≤ 0x9F) ∧ (p0 = 0xF0 → 0x90 ≤ b1) ∧
      (p0 = 0xF4 → b1 ≤ 0x8F) := by
    unfold acceptRange at ha
    split_ifs at ha <;> simp at ha <;> omega
  by_cases hl3 : leadSize p0 ≤ 3
  · right; right; left
    refine ⟨b1, b2, t2, rfl, ?_⟩
    unfold leadSize at hl hl3
    unfold valid3
    split_ifs at hl hl3 <;> omega
  simp only [if_neg hl3]
  rcases t2 with _ | ⟨b3, t3⟩
  · left; rfl
  by_cases hb3 : b3 < 0x80 ∨ 0xBF < b3
  · left; simp only [if_pos hb3]
  right; right; right
  refine ⟨b1, b2, b3, t3, rfl, ?_⟩
  unfold leadSize at hl hl3
  unfold valid4
  split_ifs at hl hl3 <;> omega

/-- Encoding the rune decoded from two valid bytes gives the two bytes back. -/
theorem EncodeRune_two (p0 b1 : Nat) (h1 : 0xC2 ≤ p0) (h2 : p0 < 0xE0)
    (h3 : 0x80 ≤ b1) (h4 : b1 ≤ 0xBF) :
    EncodeRune ((p0 % 32) * 64 + b1 % 64) = [p0, b1] := by
  unfold EncodeRune
  rw [if_neg (by omega), if_pos (by omega)]
  congr 1
  · omega
  · congr 1; omega

/-- Encoding the rune decoded from three valid bytes gives the three bytes
back. -/
theorem EncodeRune_three (p0 b1 b2 : Nat) (h : valid3 p0 b1 b2) :
    EncodeRune ((p0 % 16) * 4096 + (b1 % 64) * 64 + b2 % 64) = [p0, b1, b2] := by
  obtain ⟨h1, h2, h3, h4, h5, h6, h7, h8⟩ := h
  unfold EncodeRune
  rw [if_neg (by omega), if_neg (by omega), if_neg (by omega), if_pos (by omega)]
  unfold encode3
  congr 1
  · omega
  · congr 1
    · omega
    · congr 1; omega

/-- Encoding the rune decoded from four valid bytes gives the four bytes
back. -/
theorem EncodeRune_four (p0 b1 b2 b3 : Nat) (h : valid4 p0 b1 b2 b3) :
    EncodeRune ((p0 % 8) * 262144 + (b1 % 64) * 4096 + (b2 % 64) * 64 + b3 % 64)
      = [p0, b1, b2, b3] := by
  obtain ⟨h1, h2, h3, h4, h5, h6, h7, h8, h9, h10⟩ := h
  unfold EncodeRune
  rw [if_neg (by omega), if_neg (by omega), if_neg (by omega), if_neg (by omega)]
  congr 1
  · omega
  · congr 1
    · omega
    · congr 1
      · omega
      · congr 1; omega

/-- What a successful decode of more than one byte gives: a rune that is not
ASCII, from bytes that are not ASCII, which `EncodeRune` encodes as the same
bytes; and the decode looks at no byte behind them. -/
theorem DecodeRune_valid (p0 : Nat) (t : List Nat) (h0 : ¬ p0 < RuneSelf)
    (hv : ¬ ((DecodeRune (p0 :: t)).1 = RuneError ∧ (DecodeRune (p0 :: t)).2 = 1)) :
    0x80 ≤ (DecodeRune (p0 :: t)).1 ∧
    (∀ x ∈ (p0 :: t).take (DecodeRune (p0 :: t)).2, 0x80 ≤ x) ∧
    EncodeRune (DecodeRune (p0 :: t)).1 = (p0 :: t).take (DecodeRune (p0 :: t)).2 ∧
    0 < (DecodeRune (p0 :: t)).2 ∧
    ∀ X, DecodeRune ((p0 :: t).take (DecodeRune (p0 :: t)).2 ++ X) = DecodeRune (p0 :: t) ∧
      ((p0 :: t).take (DecodeRune (p0 :: t)).2 ++ X).drop (DecodeRune (p0 :: t)).2 = X := by
  rcases DecodeRune_shape p0 t h0 with h | ⟨b1, t1, rfl, h1, h2, h3, h4⟩ | ⟨b1, b2, t2, rfl, h⟩ |
      ⟨b1, b2, b3, t3, rfl, h⟩
  · exact absurd (by rw [h]; exact ⟨rfl, rfl⟩) hv
  · rw [DecodeRune_two p0 b1 t1 h1 h2 h3 h4]
    refine ⟨by simp only; omega, ?_, EncodeRune_two p0 b1 h1 h2 h3 h4, by simp, fun X => ?_⟩
    · intro x hx
      simp at hx
      rcases hx with rfl | rfl <;> omega
    · simp [DecodeRune_two p0 b1 X h1 h2 h3 h4]
  · rw [DecodeRune_three p0 b1 b2 t2 h]
    have h' := h
    obtain ⟨h1, h2, h3, h4, h5, h6, h7, h8⟩ := h'
    refine ⟨by simp only; omega, ?_, EncodeRune_three p0 b1 b2 h, by simp, fun X => ?_⟩
    · intro x hx
      simp at hx
      rcases hx with rfl | rfl | rfl <;> omega
    · simp [DecodeRune_three p0 b1 b2 X h]
  · rw [DecodeRune_four p0 b1 b2 b3 t3 h]
    have h' := h
    obtain ⟨h1, h2, h3, h4, h5, h6, h7, h8, h9, h10⟩ := h'
    refine ⟨by simp only; omega, ?_, EncodeRune_four p0 b1 b2 b3 h, by simp, fun X => ?_⟩
    · intro x hx
      simp at hx
      rcases hx with rfl | rfl | rfl | rfl <;> omega
    · simp [DecodeRune_four p0 b1 b2 b3 X h]

/-! ## The second loop of `unquoteBytes` does not depend on its bound -/

theorem DecodeRune_size_pos (c : Nat) (rest : List Nat) : 0 < (DecodeRune (c :: rest)).2 := by
  by_cases h0 : c < RuneSelf
  · simp [DecodeRune, h0]
  · rcases DecodeRune_shape c rest h0 with h | ⟨b1, t1, rfl, h1, h2, h3, h4⟩ | ⟨b1, b2, t2, rfl, h⟩ |
        ⟨b1, b2, b3, t3, rfl, h⟩
    · rw [h]; simp
    · rw [DecodeRune_two c b1 t1 h1 h2 h3 h4]; simp
    · rw [DecodeRune_three c b1 b2 t2 h]; simp
    · rw [DecodeRune_four c b1 b2 b3 t3 h]; simp

/-- On empty input the second loop of `unquoteBytes` returns the empty
string. -/
theorem unquoteLoop_nil (n : Nat) : unquoteLoop n [] = some [] := by
  cases n <;> rfl

/-- The result of the second loop of `unquoteBytes` does not depend on the
bound, once the bound is at least the length of the input. -/
theorem unquoteLoop_fuel : ∀ (n m : Nat) (l : List Nat), l.length ≤ n → l.length ≤ m →
    unquoteLoop n l = unquoteLoop m l := by
  intro n
  induction n with
  | zero =>
    intro m l hn hm
    have : l = [] := by simpa using hn
    subst this
    rw [unquoteLoop_nil, unquoteLoop_nil]
  | succ n ih =>
    intro m l hn hm
    rcases l with _ | ⟨c, rest⟩
    · rw [unquoteLoop_nil, unquoteLoop_nil]
    rcases m with _ | m
    · simp at hm
    simp only [List.length_cons, Nat.add_le_add_iff_right] at hn hm
    have hd : ∀ k, unquoteLoop n ((c :: rest).drop (k + 1))
        = unquoteLoop m ((c :: rest).drop (k + 1)) :=
      fun k => ih m _ (by simp; omega) (by simp; omega)
    obtain ⟨k, hk⟩ : ∃ k, (DecodeRune (c :: rest)).2 = k + 1 :=
      ⟨(DecodeRune (c :: rest)).2 - 1, by have := DecodeRune_size_pos c rest; omega⟩
    have hr := ih m rest hn hm
    rcases rest with _ | ⟨e, rest1⟩
    · simp only [unquoteLoop, unquoteStep, unquoteU, hr, hk, hd k]
    · have hr1 := ih m rest1 (by simp at hn; omega) (by simp at hm; omega)
      simp only [unquoteLoop, unquoteStep, unquoteU, hr, hr1, hd 5, hd 11, hk, hd k]

/-! ## Unquoting what `encodeState.string` wrote -/

theorem hexVal_hex (n : Nat) (h : n < 16) : hexVal (hex n) = some n := by
  unfold hex hexVal
  split_ifs <;> first | omega | (congr 1; omega)

/-- The byte `hex[n]` is a hexadecimal digit. -/
theorem isHexDigit_hex (n : Nat) (h : n < 16) : isHexDigit (hex n) = true := by
  unfold hex isHexDigit
  split_ifs <;> simp <;> omega

/-- The escape that `encodeState.string` writes for an ASCII byte `b` is
read back by `getu4` as `b`. -/
theorem getu4_byte (b : Nat) (Y : List Nat) (h : b < 0x80) :
    getu4 (0x5C :: 0x75 :: 0x30 :: 0x30 :: hex (b / 16) :: hex (b % 16) :: Y) = some b := by
  simp only [getu4]
  rw [hexVal_hex _ (by omega), hexVal_hex _ (by omega)]
  simp [hexVal]
  omega

/-- The second loop of `unquoteBytes`, run on what the loop of
`encodeState.string` wrote for `s`, gives `s` coerced to UTF-8. -/
theorem unquoteLoop_stringLoop : ∀ (fuel : Nat) (s : List Nat), s.length ≤ fuel →
    ∀ n, (stringLoop fuel s).length ≤ n →
      unquoteLoop n (stringLoop fuel s) = some (coerceUTF8 fuel s) := by
  intro fuel
  induction fuel with
  | zero =>
    intro s hs n _
    have : s = [] := by simpa using hs
    subst this
    simp [stringLoop, coerceUTF8, unquoteLoop_nil]
  | succ fuel ih =>
    intro s hs n hn
    rcases s with _ | ⟨b, rest⟩
    · simp [stringLoop, coerceUTF8, unquoteLoop_nil]
    simp only [List.length_cons, Nat.add_le_add_iff_right] at hs
    rw [stringLoop] at hn ⊢
    rw [coerceUTF8]
    by_cases hb : b < RuneSelf
    · rw [if_pos hb] at hn ⊢
      rw [if_pos hb]
      by_cases hsafe : htmlSafeSet b = true
      · rw [if_pos hsafe] at hn ⊢
        rcases n with _ | n
        · simp at hn
        simp only [List.length_cons, Nat.add_le_add_iff_right] at hn
        simp only [htmlSafeSet, Bool.and_eq_true, decide_eq_true_eq, bne_iff_ne, ne_eq] at hsafe
        simp only [unquoteLoop, unquoteStep]
        rw [if_neg (by omega), if_neg (by omega), if_pos hb, ih rest hs n hn]
        rfl
      · rw [if_neg hsafe] at hn ⊢
        unfold RuneSelf at hb
        rcases n with _ | n
        · unfold escapeByte at hn
          split_ifs at hn <;> simp at hn
        have hlen : (stringLoop fuel rest).length ≤ n := by
          unfold escapeByte at hn
          split_ifs at hn <;> simp at hn <;> omega
        have hih := ih rest hs n hlen
        unfold escapeByte
        split_ifs with h1 h2 h3 h4
        · simp only [List.cons_append, List.nil_append]
          simp only [unquoteLoop, unquoteStep]
          rw [if_pos trivial, if_pos (by omega), hih]
          rfl
        · subst h2
          simp only [List.cons_append, List.nil_append]
          simp only [unquoteLoop, unquoteStep]
          simp [hih]
        · subst h3
          simp only [List.cons_append, List.nil_append]
          simp only [unquoteLoop, unquoteStep]
          simp [hih]
        · subst h4
          simp only [List.cons_append, List.nil_append]
          simp only [unquoteLoop, unquoteStep]
          simp [hih]
        · simp only [List.cons_append, List.nil_append]
          simp only [unquoteLoop, unquoteStep, unquoteU]
          rw [getu4_byte b _ hb]
          have hns : IsSurrogate b = false := by
            unfold IsSurrogate
            simp
            omega
          have he : EncodeRune b = [b] := by
            unfold EncodeRune
            rw [if_pos (by omega)]
          simp [hns, he, hih]
    · rw [if_neg hb] at hn ⊢
      rw [if_neg hb]
      have hpos := DecodeRune_size_pos b rest
      by_cases hv : (DecodeRune (b :: rest)).1 = RuneError ∧ (DecodeRune (b :: rest)).2 = 1
      · rw [if_pos hv] at hn ⊢
        rcases n with _ | n
        · simp at hn
        have hlen : (stringLoop fuel rest).length ≤ n := by
          simp at hn; omega
        have hih := ih rest hs n hlen
        have hg : ∀ Y, getu4 (0x5C :: 0x75 :: 0x66 :: 0x66 :: 0x66 :: 0x64 :: Y) = some RuneError := by
          intro Y
          simp [getu4, hexVal, RuneError]
        simp only [List.cons_append, List.nil_append]
        simp only [unquoteLoop, unquoteStep, unquoteU]
        rw [hg, hv.1, hv.2]
        simp [IsSurrogate, RuneError, hih]
      · rw [if_neg hv] at hn ⊢
        obtain ⟨h80, hall, henc, _, hX⟩ := DecodeRune_valid b rest hb hv
        have hs' : ((b :: rest).drop (DecodeRune (b :: rest)).2).length ≤ fuel := by
          simp only [List.length_drop, List.length_cons]
          omega
        by_cases hls : (DecodeRune (b :: rest)).1 = 0x2028 ∨ (DecodeRune (b :: rest)).1 = 0x2029
        · rw [if_pos hls] at hn ⊢
          rcases n with _ | n
          · simp at hn
          have hlen : (stringLoop fuel ((b :: rest).drop (DecodeRune (b :: rest)).2)).length ≤ n := by
            simp at hn; omega
          have hih := ih _ hs' n hlen
          have hg : ∀ Y, getu4 (0x5C :: 0x75 :: 0x32 :: 0x30 :: 0x32 ::
              hex ((DecodeRune (b :: rest)).1 % 16) :: Y) = some (DecodeRune (b :: rest)).1 := by
            intro Y
            rcases hls with h | h <;> rw [h] <;> simp [getu4, hexVal, hex]
          simp only [List.cons_append, List.nil_append]
          simp only [unquoteLoop, unquoteStep, unquoteU]
          rw [hg]
          have hns : IsSurrogate (DecodeRune (b :: rest)).1 = false := by
            rcases hls with h | h <;> rw [h] <;> simp [IsSurrogate]
          simp [hns, hih]
        · rw [if_neg hls] at hn ⊢
          obtain ⟨h1, h2⟩ := hX (stringLoop fuel ((b :: rest).drop (DecodeRune (b :: rest)).2))
          have hZ : (b :: rest).take (DecodeRune (b :: rest)).2
                ++ stringLoop fuel ((b :: rest).drop (DecodeRune (b :: rest)).2)
              = b :: (rest.take ((DecodeRune (b :: rest)).2 - 1)
                ++ stringLoop fuel ((b :: rest).drop (DecodeRune (b :: rest)).2)) := by
            obtain ⟨k, hk⟩ : ∃ k, (DecodeRune (b :: rest)).2 = k + 1 :=
              ⟨(DecodeRune (b :: rest)).2 - 1, by omega⟩
            rw [hk]
            simp
          rw [hZ] at h1 h2 hn ⊢
          rcases n with _ | n
          · simp at hn
          have hlen : (stringLoop fuel ((b :: rest).drop (DecodeRune (b :: rest)).2)).length ≤ n := by
            simp at hn; omega
          have hih := ih _ hs' n hlen
          unfold RuneSelf at hb
          simp only [unquoteLoop, unquoteStep]
          rw [if_neg (by omega), if_neg (by omega), if_neg (by unfold RuneSelf; omega), h1, h2, hih]
          rfl

/-! ## The first loop of `unquoteBytes` agrees with the second -/

theorem unquoteScan_loop : ∀ (n : Nat) (l : List Nat), l.length ≤ n → ∀ m, l.length ≤ m →
    unquoteLoop m l
      = (unquoteLoop m (l.drop (unquoteScan n l))).map (l.take (unquoteScan n l) ++ ·) := by
  intro n
  induction n with
  | zero =>
    intro l hl m _
    have : l = [] := by simpa using hl
    subst this
    simp [unquoteScan, unquoteLoop_nil]
  | succ n ih =>
    intro l hl m hm
    rcases l with _ | ⟨c, rest⟩
    · simp [unquoteScan, unquoteLoop_nil]
    simp only [List.length_cons, Nat.add_le_add_iff_right] at hl
    rcases m with _ | m
    · simp at hm
    simp only [List.length_cons, Nat.add_le_add_iff_right] at hm
    rw [unquoteScan]
    by_cases h1 : c = 0x5C ∨ c = 0x22 ∨ c < 0x20
    · rw [if_pos h1]
      simp
    rw [if_neg h1]
    by_cases h2 : c < RuneSelf
    · rw [if_pos h2]
      have e1 : unquoteLoop (m + 1) (c :: rest) = (unquoteLoop m rest).map (c :: ·) := by
        simp only [unquoteLoop, unquoteStep]
        rw [if_neg (by omega), if_neg (by omega), if_pos h2]
      rw [e1, ih rest hl m hm, Nat.add_comm 1, List.drop_succ_cons, List.take_succ_cons,
        unquoteLoop_fuel (m + 1) m _ (by simp; omega) (by simp; omega), Option.map_map]
      rfl
    rw [if_neg h2]
    by_cases hv : (DecodeRune (c :: rest)).1 = RuneError ∧ (DecodeRune (c :: rest)).2 = 1
    · rw [if_pos hv]
      simp
    rw [if_neg hv]
    obtain ⟨_, _, henc, hpos, _⟩ := DecodeRune_valid c rest h2 hv
    have hd : ((c :: rest).drop (DecodeRune (c :: rest)).2).length ≤ n := by
      simp only [List.length_drop, List.length_cons]
      omega
    have hd' : ((c :: rest).drop (DecodeRune (c :: rest)).2).length ≤ m := by
      simp only [List.length_drop, List.length_cons]
      omega
    have e1 : unquoteLoop (m + 1) (c :: rest)
        = (unquoteLoop m ((c :: rest).drop (DecodeRune (c :: rest)).2)).map
            ((c :: rest).take (DecodeRune (c :: rest)).2 ++ ·) := by
      simp only [unquoteLoop, unquoteStep]
      rw [if_neg (by omega), if_neg (by omega), if_neg h2, henc]
    rw [e1, ih _ hd m hd', List.take_add, ← List.drop_drop,
      unquoteLoop_fuel (m + 1) m _ (by simp; omega) (by simp; omega), Option.map_map]
    congr 1
    funext x
    simp

/-- On a literal with both quotes, `unquoteBytes` is the second loop on the
bytes between the quotes: the shortcut of the first loop does not change the
result. -/
theorem unquoteBytes_quoted (body : List Nat) :
    unquoteBytes (0x22 :: (body ++ [0x22])) = unquoteLoop body.length body := by
  have hb : ((0x22 :: (body ++ [0x22])).drop 1).dropLast = body := by simp
  have hl : (0x22 :: (body ++ [0x22])).getLast? = some 0x22 := by
    rw [← List.cons_append, List.getLast?_concat]
  unfold unquoteBytes
  rw [hb, if_neg (by simp [hl])]
  have h := unquoteScan_loop body.length body (Nat.le_refl _) body.length (Nat.le_refl _)
  split_ifs with hr
  · rw [h, hr]
    simp [unquoteLoop_nil]
  · exact h.symm

/-! ## The scanner accepts what `encodeState.string` wrote -/

theorem stringLoop_induction (P : List Nat → Prop) (hnil : P [])
    (hplain : ∀ c Y, 0x20 ≤ c → c ≠ 0x22 → c ≠ 0x5C → P Y → P (c :: Y))
    (hesc : ∀ e Y, (e = 0x22 ∨ e = 0x5C ∨ e = 0x6E ∨ e = 0x72 ∨ e = 0x74) → P Y →
      P (0x5C :: e :: Y))
    (hu : ∀ a b c d Y, isHexDigit a = true → isHexDigit b = true → isHexDigit c = true →
      isHexDigit d = true → P Y → P (0x5C :: 0x75 :: a :: b :: c :: d :: Y)) :
    ∀ (fuel : Nat) (s : List Nat), P (stringLoop fuel s) := by
  have hchunk : ∀ (chunk : List Nat) (Y : List Nat), (∀ x ∈ chunk, 0x80 ≤ x) → P Y →
      P (chunk ++ Y) := by
    intro chunk
    induction chunk with
    | nil => intro Y _ h; exact h
    | cons c cs ih =>
      intro Y hall h
      have hc := hall c (by simp)
      exact hplain c _ (by omega) (by omega) (by omega)
        (ih Y (fun x hx => hall x (by simp [hx])) h)
  intro fuel
  induction fuel with
  | zero =>
    intro s
    rcases s with _ | ⟨b, rest⟩ <;> exact hnil
  | succ fuel ih =>
    intro s
    rcases s with _ | ⟨b, rest⟩
    · exact hnil
    rw [stringLoop]
    by_cases hb : b < RuneSelf
    · rw [if_pos hb]
      by_cases hsafe : htmlSafeSet b = true
      · rw [if_pos hsafe]
        simp only [htmlSafeSet, Bool.and_eq_true, decide_eq_true_eq, bne_iff_ne, ne_eq] at hsafe
        exact hplain b _ (by omega) (by omega) (by omega) (ih rest)
      · rw [if_neg hsafe]
        unfold RuneSelf at hb
        unfold escapeByte
        split_ifs with h1 h2 h3 h4
        · exact hesc b _ (by omega) (ih rest)
        · exact hesc _ _ (by simp) (ih rest)
        · exact hesc _ _ (by simp) (ih rest)
        · exact hesc _ _ (by simp) (ih rest)
        · exact hu _ _ _ _ _ (by decide) (by decide) (isHexDigit_hex _ (by omega))
            (isHexDigit_hex _ (by omega)) (ih rest)
    · rw [if_neg hb]
      by_cases hv : (DecodeRune (b :: rest)).1 = RuneError ∧ (DecodeRune (b :: rest)).2 = 1
      · rw [if_pos hv]
        exact hu _ _ _ _ _ (by decide) (by decide) (by decide) (by decide) (ih rest)
      · rw [if_neg hv]
        obtain ⟨_, hall, _, _, _⟩ := DecodeRune_valid b rest hb hv
        by_cases hls : (DecodeRune (b :: rest)).1 = 0x2028 ∨ (DecodeRune (b :: rest)).1 = 0x2029
        · rw [if_pos hls]
          exact hu _ _ _ _ _ (by decide) (by decide) (by decide)
            (isHexDigit_hex _ (Nat.mod_lt _ (by decide))) (ih _)
        · rw [if_neg hls]
          exact hchunk _ _ hall (ih _)

/-- A hexadecimal digit is neither a double quote nor a backslash. -/
theorem isHexDigit_ne (a : Nat) (h : isHexDigit a = true) : a ≠ 0x22 ∧ a ≠ 0x5C := by
  simp only [isHexDigit, Bool.or_eq_true, Bool.and_eq_true, decide_eq_true_eq] at h
  omega


/-- The scanner, inside a string, passes over the output of the loop of
`encodeState.string` and is inside the string afterwards. -/
theorem checkValidLoop_stringLoop (fuel : Nat) (s tail : List Nat) :
    checkValidLoop inString (stringLoop fuel s ++ tail) = checkValidLoop inString tail := by
  revert tail
  refine stringLoop_induction (fun Y => ∀ tail, checkValidLoop inString (Y ++ tail)
    = checkValidLoop inString tail) ?_ ?_ ?_ ?_ fuel s
  · intro tail; rfl
  · intro c Y h1 h2 h3 ih tail
    have : inString.run c = (inString, .scanContinue) := by
      simp only [scanner.run, inString, stateInString]
      rw [if_neg h2, if_neg h3, if_neg (by omega)]
    simp only [List.cons_append, checkValidLoop, this]
    simpa using ih tail
  · intro e Y he ih tail
    simp only [List.cons_append, checkValidLoop]
    rcases he with rfl | rfl | rfl | rfl | rfl <;>
      simpa [scanner.run, inString, stateInString, stateInStringEsc] using ih tail
  · intro a b c d Y ha hb hc hd ih tail
    simp only [List.cons_append, checkValidLoop]
    simpa [scanner.run, inString, stateInString, stateInStringEsc, expect, ha, hb, hc, hd]
      using ih tail

/-- The string case of `rescanLiteral` passes over a byte that is neither
quote nor backslash. -/
theorem rescanString_plain (c : Nat) (Z : List Nat) (h2 : c ≠ 0x22) (h3 : c ≠ 0x5C) :
    rescanString (c :: Z) = c :: rescanString Z := by
  rw [rescanString.eq_def]
  simp only
  rw [if_neg h2, if_neg h3]

/-- The string case of `rescanLiteral` passes over a backslash and the byte
after it. -/
theorem rescanString_esc (e : Nat) (Z : List Nat) :
    rescanString (0x5C :: e :: Z) = 0x5C :: e :: rescanString Z := by
  rw [rescanString.eq_def]
  simp

/-- The string case of `rescanLiteral` stops at a double quote. -/
theorem rescanString_quote (Z : List Nat) : rescanString (0x22 :: Z) = [0x22] := by
  rw [rescanString.eq_def]
  simp

/-- The string case of `rescanLiteral` passes over the output of the loop of
`encodeState.string` and stops at the quote that follows it. -/
theorem rescanString_stringLoop (fuel : Nat) (s tail : List Nat) :
    rescanString (stringLoop fuel s ++ 0x22 :: tail) = stringLoop fuel s ++ [0x22] := by
  revert tail
  refine stringLoop_induction (fun Y => ∀ tail, rescanString (Y ++ 0x22 :: tail) = Y ++ [0x22])
    ?_ ?_ ?_ ?_ fuel s
  · intro tail
    exact rescanString_quote tail
  · intro c Y h1 h2 h3 ih tail
    simp only [List.cons_append]
    rw [rescanString_plain c _ h2 h3, ih tail]
  · intro e Y he ih tail
    simp only [List.cons_append]
    rw [rescanString_esc, ih tail]
  · intro a b c d Y ha hb hc hd ih tail
    have h1 := isHexDigit_ne a ha
    have h2 := isHexDigit_ne b hb
    have h3 := isHexDigit_ne c hc
    have h4 := isHexDigit_ne d hd
    simp only [List.cons_append]
    rw [rescanString_esc, rescanString_plain a _ h1.1 h1.2, rescanString_plain b _ h2.1 h2.2,
      rescanString_plain c _ h3.1 h3.2, rescanString_plain d _ h4.1 h4.2, ih tail]

/-! ## `json.Unmarshal` after `json.Marshal` -/

theorem checkValid_string (fuel : Nat) (s : List Nat) :
    checkValid (0x22 :: (stringLoop fuel s ++ [0x22])) = true := by
  have h1 : scanner.reset.run 0x22 = (inString, .scanBeginLiteral) := by decide
  have h2 : checkValidLoop inString [0x22] = true := by decide
  unfold checkValid
  rw [checkValidLoop, h1, if_neg (by decide)]
  simp only
  rw [checkValidLoop_stringLoop, h2]

/-- On input that begins with a double quote, `scanWhile(scanSkipSpace)`
stops at once with `scanBeginLiteral`. -/
theorem scanWhileSkipSpace_quote (X : List Nat) :
    scanWhileSkipSpace scanner.reset (0x22 :: X) = (.scanBeginLiteral, 0x22 :: X) := by
  have h1 : scanner.reset.run 0x22 = (inString, .scanBeginLiteral) := by decide
  rw [scanWhileSkipSpace, h1, if_pos (by decide)]

/-- Decoding what `json.Marshal` wrote for a string succeeds and stores the
string coerced to UTF-8. -/
theorem jsonUnmarshalString_Marshal (s s0 : GoString) :
    jsonUnmarshalString (jsonMarshalString s).1 s0
      = .returned (none, coerceUTF8 s.length s) := by
  have hlit : rescanLiteral (0x22 :: (stringLoop s.length s ++ [0x22]))
      = 0x22 :: (stringLoop s.length s ++ [0x22]) := by
    unfold rescanLiteral
    simp only
    rw [if_pos trivial, rescanString_stringLoop]
  unfold jsonMarshalString encodeState.string jsonUnmarshalString
  simp only
  rw [checkValid_string, scanWhileSkipSpace_quote]
  simp only [Bool.not_true, Bool.false_eq_true, if_false]
  rw [hlit]
  unfold literalStore
  simp only
  rw [if_pos trivial, unquoteBytes_quoted,
    unquoteLoop_stringLoop s.length s (Nat.le_refl _) _ (Nat.le_refl _)]
  simp

/-- The encoding of a rune that is not ASCII begins with a byte that is not
ASCII. -/
theorem EncodeRune_head (r : Nat) (h : 0x80 ≤ r) :
    ∃ x tl, EncodeRune r = x :: tl ∧ 0x80 ≤ x := by
  unfold EncodeRune encode3
  split_ifs
  · omega
  · exact ⟨_, _, rfl, by omega⟩
  · exact ⟨_, _, rfl, by omega⟩
  · exact ⟨_, _, rfl, by omega⟩
  · exact ⟨_, _, rfl, by omega⟩

/-- The rune decoded at a lead byte that is not ASCII is not ASCII. -/
theorem DecodeRune_ge (b : Nat) (rest : List Nat) (hb : ¬ b < RuneSelf) :
    0x80 ≤ (DecodeRune (b :: rest)).1 := by
  by_cases hv : (DecodeRune (b :: rest)).1 = RuneError ∧ (DecodeRune (b :: rest)).2 = 1
  · rw [hv.1]; decide
  · exact (DecodeRune_valid b rest hb hv).1

/-- A string whose coercion to UTF-8 is all ASCII is that coercion. -/
theorem coerceUTF8_ascii : ∀ (fuel : Nat) (s : List Nat), s.length ≤ fuel → ∀ t : List Nat,
    (∀ x ∈ t, x < 0x80) → coerceUTF8 fuel s = t → s = t := by
  intro fuel
  induction fuel with
  | zero =>
    intro s hs t _ h
    have : s = [] := by simpa using hs
    subst this
    simpa [coerceUTF8] using h
  | succ fuel ih =>
    intro s hs t ht h
    rcases s with _ | ⟨b, rest⟩
    · simpa [coerceUTF8] using h
    simp only [List.length_cons, Nat.add_le_add_iff_right] at hs
    rw [coerceUTF8] at h
    by_cases hb : b < RuneSelf
    · rw [if_pos hb] at h
      rcases t with _ | ⟨x, t⟩
      · simp at h
      simp only [List.cons.injEq] at h
      obtain ⟨rfl, h⟩ := h
      rw [ih rest hs t (fun y hy => ht y (by simp [hy])) h]
    · rw [if_neg hb] at h
      obtain ⟨x, tl, hx, hx80⟩ := EncodeRune_head _ (DecodeRune_ge b rest hb)
      rw [hx] at h
      have := ht x (by rw [← h]; simp)
      omega

/-! ## The first byte of the value decides what `json.Unmarshal` does -/

theorem run_reset_space (c : Nat) (h : isSpace c = true) :
    scanner.reset.run c = (scanner.reset, .scanSkipSpace) := by
  simp only [scanner.run, scanner.reset, stateBeginValue]
  rw [if_pos h]

/-- The code of the first scanner step on a byte that is not space is fixed
by the byte. -/
theorem run_reset_code (c : Nat) (h : ¬ isSpace c = true) :
    (c = 0x7B ∧ (scanner.reset.run c).2 = .scanBeginObject) ∨
    (c = 0x5B ∧ (scanner.reset.run c).2 = .scanBeginArray) ∨
    ((c = 0x22 ∨ c = 0x2D ∨ c = 0x74 ∨ c = 0x66 ∨ c = 0x6E ∨ (0x30 ≤ c ∧ c ≤ 0x39)) ∧
      (scanner.reset.run c).2 = .scanBeginLiteral) ∨
    (scanner.reset.run c).2 = .scanError := by
  simp only [scanner.run, scanner.reset, stateBeginValue]
  rw [if_neg h]
  split_ifs <;> simp [scanner.error, scanner.pushParseState] <;> omega

/-- The call `scanWhile(scanSkipSpace)` at the beginning of the input stops
at the first byte that is not space, with the code of the scanner step on
that byte. -/
theorem scanWhileSkipSpace_reset (data : List Nat) :
    scanWhileSkipSpace scanner.reset data =
      match data.dropWhile isSpace with
      | [] => (.scanError, [])
      | c :: rest => ((scanner.reset.run c).2, c :: rest) := by
  induction data with
  | nil => decide
  | cons c rest ih =>
    rw [scanWhileSkipSpace]
    by_cases h : isSpace c = true
    · rw [run_reset_space c h, if_neg (by decide), List.dropWhile_cons_of_pos h]
      exact ih
    · rw [List.dropWhile_cons_of_neg h]
      have hne : (scanner.reset.run c).2 ≠ .scanSkipSpace := by
        rcases run_reset_code c h with ⟨_, h'⟩ | ⟨_, h'⟩ | ⟨_, h'⟩ | h' <;> rw [h'] <;> decide
      rw [if_pos hne]

/-- Valid JSON has a first byte that is not space, and the scanner accepts
it as the beginning of a value. -/
theorem checkValid_first (data : List Nat) (h : checkValid data = true) :
    ∃ c rest, data.dropWhile isSpace = c :: rest ∧ isSpace c = false ∧
      (scanner.reset.run c).2 ≠ .scanError := by
  unfold checkValid at h
  induction data with
  | nil => exact absurd h (by decide)
  | cons c rest ih =>
    rw [checkValidLoop] at h
    by_cases hs : isSpace c = true
    · rw [run_reset_space c hs, if_neg (by decide)] at h
      rw [List.dropWhile_cons_of_pos hs]
      exact ih h
    · rw [List.dropWhile_cons_of_neg hs]
      refine ⟨c, rest, rfl, by simpa using hs, ?_⟩
      intro he
      rw [if_pos he] at h
      exact absurd h (by decide)

/-- The literal that `rescanLiteral` delimits begins with the first byte of
the input; for a string it continues as `rescanString` says. -/
theorem rescanLiteral_cons (c : Nat) (rest : List Nat) :
    ∃ tl, rescanLiteral (c :: rest) = c :: tl ∧ (c = 0x22 → tl = rescanString rest) := by
  unfold rescanLiteral
  simp only
  split_ifs with h <;> exact ⟨_, rfl, by intro h'; first | rfl | (exfalso; revert h'; simp_all)⟩

/-- The three ways `json.Unmarshal` into a string can go: it returns an error
and leaves the string; the value is `null` and it leaves the string without
an error; or the input is valid, the value begins with a double quote, and
the literal is unquoted and stored. -/
theorem jsonUnmarshalString_cases (data : List Nat) (s0 : GoString) :
    (∃ e, jsonUnmarshalString data s0 = .returned (some e, s0)) ∨
    (jsonUnmarshalString data s0 = .returned (none, s0) ∧ firstValueByte data = some 0x6E) ∨
    (checkValid data = true ∧ ∃ rest, data.dropWhile isSpace = 0x22 :: rest ∧
      jsonUnmarshalString data s0 =
        match unquoteBytes (0x22 :: rescanString rest) with
        | none => .panicked
        | some s => .returned (none, s)) := by
  by_cases hv : checkValid data = true
  · obtain ⟨c, rest, hd, hsp, hne⟩ := checkValid_first data hv
    have hsw := scanWhileSkipSpace_reset data
    rw [hd] at hsw
    simp only at hsw
    obtain ⟨tl, htl, hq⟩ := rescanLiteral_cons c rest
    have hun : jsonUnmarshalString data s0 =
        match ((scanner.reset.run c).2, c :: rest) with
        | (.scanBeginArray, _) => .returned (some (.UnmarshalTypeError "array"), s0)
        | (.scanBeginObject, _) => .returned (some (.UnmarshalTypeError "object"), s0)
        | (.scanBeginLiteral, d) => literalStore (rescanLiteral d) s0
        | _ => .panicked := by
      unfold jsonUnmarshalString
      rw [hv, hsw]
      rfl
    rcases run_reset_code c (by simp [hsp]) with ⟨_, h'⟩ | ⟨_, h'⟩ | ⟨hc, h'⟩ | h'
    · left
      rw [hun, h']
      exact ⟨_, rfl⟩
    · left
      rw [hun, h']
      exact ⟨_, rfl⟩
    · rw [h'] at hun
      simp only at hun
      rw [htl] at hun
      unfold literalStore at hun
      simp only at hun
      by_cases h22 : c = 0x22
      · right; right
        subst h22
        refine ⟨hv, rest, hd, ?_⟩
        rw [hun, if_neg (by decide), if_neg (by decide), if_pos rfl, hq rfl]
      · by_cases hn : c = 0x6E
        · right; left
          rw [if_pos hn] at hun
          refine ⟨hun, ?_⟩
          unfold firstValueByte
          rw [hd, hn]
          rfl
        · left
          rw [if_neg hn, if_neg h22] at hun
          by_cases htf : c = 0x74 ∨ c = 0x66
          · rw [if_pos htf] at hun
            exact ⟨_, hun⟩
          · rw [if_neg htf, if_neg (by omega)] at hun
            exact ⟨_, hun⟩
    · exact absurd h' hne
  · left
    refine ⟨.SyntaxError, ?_⟩
    unfold jsonUnmarshalString
    simp [hv]

/-! ## The claims -/

/-- C1: the round trip through the registry. For every registered client type
`t` (the only one is `Tendermint`), parsing the canonical string of `t` gives
`t` back: `ClientTypeFromString(t.String()) == t`. -/
theorem ClientTypeFromString_String_roundtrip (t : ClientType) (h : t ∈ registeredTypes) :
    ClientTypeFromString (ClientType.String t) = t := by
  have ht : t = Tendermint := by simpa [registeredTypes] using h
  subst ht
  decide

/-- The round trip at `Tendermint`. -/
theorem ClientTypeFromString_String_roundtrip_witness :
    Tendermint ∈ registeredTypes ∧
      ClientTypeFromString (ClientType.String Tendermint) = Tendermint :=
  ⟨by decide, ClientTypeFromString_String_roundtrip Tendermint (by decide)⟩

/-- What `UnmarshalJSON` does once `json.Unmarshal` has stored the string `s`
without error. -/
theorem UnmarshalJSON_of_string (c0 : ClientType) (data : List Nat) (s : GoString)
    (h : jsonUnmarshalString data [] = .returned (none, s)) :
    ClientType.UnmarshalJSON c0 data =
      if s = ClientTypeTendermint then .returned (none, Tendermint)
      else .returned (some (.invalidClientType s), c0) := by
  unfold ClientType.UnmarshalJSON
  rw [h]
  simp only [ClientTypeFromString]
  by_cases hs : s = ClientTypeTendermint
  · rw [if_pos hs, if_pos hs, if_neg (by decide)]
  · rw [if_neg hs, if_neg hs, if_pos rfl]

/-- C2: decoding the JSON encoding of a string that is not a registered
client-type name fails and leaves the target as it was. For every string `s`
other than `tendermint` and every initial value `c0` of the target,
`json.Marshal(s)` succeeds and `UnmarshalJSON` on its bytes returns the
invalid-client-type error (quoting the decoded string) with the target still
`c0`; it does not return success, and does not set the target to zero. -/
theorem UnmarshalJSON_unregistered_name (s : GoString) (c0 : ClientType)
    (h : s ≠ ClientTypeTendermint) :
    (jsonMarshalString s).2 = none ∧
      ClientType.UnmarshalJSON c0 (jsonMarshalString s).1
        = .returned (some (.invalidClientType (coerceUTF8 s.length s)), c0) := by
  refine ⟨rfl, ?_⟩
  rw [UnmarshalJSON_of_string c0 _ _ (jsonUnmarshalString_Marshal s []), if_neg]
  intro hc
  exact h (coerceUTF8_ascii s.length s (Nat.le_refl _) _ (by decide) hc)

/-- The capitalised spelling `Tendermint` is rejected and the target keeps
the value 7. -/
theorem UnmarshalJSON_unregistered_name_witness :
    [0x54, 0x65, 0x6E, 0x64, 0x65, 0x72, 0x6D, 0x69, 0x6E, 0x74] ≠ ClientTypeTendermint ∧
      ((jsonMarshalString [0x54, 0x65, 0x6E, 0x64, 0x65, 0x72, 0x6D, 0x69, 0x6E, 0x74]).2 = none ∧
      ClientType.UnmarshalJSON 7
          (jsonMarshalString [0x54, 0x65, 0x6E, 0x64, 0x65, 0x72, 0x6D, 0x69, 0x6E, 0x74]).1
        = .returned (some (.invalidClientType
            (coerceUTF8 [0x54, 0x65, 0x6E, 0x64, 0x65, 0x72, 0x6D, 0x69, 0x6E, 0x74].length
              [0x54, 0x65, 0x6E, 0x64, 0x65, 0x72, 0x6D, 0x69, 0x6E, 0x74])), 7)) :=
  ⟨by decide, UnmarshalJSON_unregistered_name _ 7 (by decide)⟩

/-- C3: `MarshalJSON` writes the canonical string, not the numeric value. For
every `ct`, `ct.MarshalJSON()` is `json.Marshal(ct.String())` and its error is
`nil`; for `Tendermint` the bytes are exactly `tendermint` between double
quotes, and they are not the bytes of the number `1`. -/
theorem MarshalJSON_canonical_string (ct : ClientType) :
    ClientType.MarshalJSON ct = jsonMarshalString (ClientType.String ct) ∧
      (ClientType.MarshalJSON ct).2 = none ∧
      ClientType.MarshalJSON Tendermint
        = ([0x22, 0x74, 0x65, 0x6E, 0x64, 0x65, 0x72, 0x6D, 0x69, 0x6E, 0x74, 0x22], none) ∧
      (ClientType.MarshalJSON Tendermint).1 = 0x22 :: (ClientTypeTendermint ++ [0x22]) ∧
      (ClientType.MarshalJSON Tendermint).1 ≠ [0x31] :=
  ⟨rfl, rfl, by decide, by decide, by decide⟩

/-- C4: `ClientTypeFromString` is a total function with the zero sentinel.
For every string `s` it returns `Tendermint` when `s` is exactly `tendermint`
and `0` otherwise; so it returns `0` if and only if `s` is not a registered
name. -/
theorem ClientTypeFromString_sentinel (s : GoString) :
    (ClientTypeFromString s = if s = ClientTypeTendermint then Tendermint else 0) ∧
      (ClientTypeFromString s = 0 ↔ s ≠ ClientTypeTendermint) ∧
      (ClientTypeFromString s = Tendermint ↔ s = ClientTypeTendermint) ∧
      ClientTypeFromString ClientTypeTendermint = Tendermint := by
  refine ⟨rfl, ?_, ?_, by decide⟩ <;> unfold ClientTypeFromString <;>
    by_cases hs : s = ClientTypeTendermint <;> simp [hs, Tendermint]

/-- C5: `String` is a total function on the values of `ClientType`. It gives
the non-empty canonical string `tendermint` for `Tendermint` and the empty
string for the zero value and for every other value; so `ct.String()` is
empty if and only if `ct` is not registered. -/
theorem String_total (ct : ClientType) :
    (ClientType.String ct = if ct = 1 then ClientTypeTendermint else []) ∧
      ClientType.String Tendermint = ClientTypeTendermint ∧
      ClientTypeTendermint ≠ [] ∧
      ClientType.String 0 = [] ∧
      (ClientType.String ct = [] ↔ ct ∉ registeredTypes) := by
  refine ⟨rfl, by decide, by decide, by decide, ?_⟩
  unfold ClientType.String
  by_cases h : ct = Tendermint <;> simp [h, registeredTypes, ClientTypeTendermint]

/-- C7: the zero value of `ClientType` is reserved. The numeric tag of
`Tendermint` is 1, no registered type is 0, the string of the zero value is
empty, and `ClientTypeFromString` returns 0 for no registered name. -/
theorem zero_value_reserved :
    Tendermint = 1 ∧ (0 : ClientType) ∉ registeredTypes ∧ ClientType.String 0 = [] ∧
      registeredTypes.all (fun t => ClientTypeFromString (ClientType.String t) != 0) = true := by
  decide

/-- C9: the JSON round trip. For every registered client type `t` and every
initial value `c0` of the target, `t.MarshalJSON()` succeeds and
`UnmarshalJSON` on its bytes returns a `nil` error and sets the target to
`t`. -/
theorem JSON_roundtrip_registered (t c0 : ClientType) (h : t ∈ registeredTypes) :
    (ClientType.MarshalJSON t).2 = none ∧
      ClientType.UnmarshalJSON c0 (ClientType.MarshalJSON t).1 = .returned (none, t) := by
  have ht : t = Tendermint := by simpa [registeredTypes] using h
  subst ht
  refine ⟨rfl, ?_⟩
  rw [UnmarshalJSON_of_string c0 _ ClientTypeTendermint (by decide), if_pos rfl]

/-- The JSON round trip at `Tendermint`, into a target that holds the zero
value. -/
theorem JSON_roundtrip_registered_witness :
    Tendermint ∈ registeredTypes ∧
      ((ClientType.MarshalJSON Tendermint).2 = none ∧
        ClientType.UnmarshalJSON 0 (ClientType.MarshalJSON Tendermint).1
          = .returned (none, Tendermint)) :=
  ⟨by decide, JSON_roundtrip_registered Tendermint 0 (by decide)⟩

/-- C6: input that is not a JSON string is rejected and the target is left as
it was. For every input `data` whose value does not begin with a double
quote (a number such as the numeric tag `1`, `null`, a boolean, an array, an
object, or input that is not JSON at all) and every initial value `c0` of the
target, `UnmarshalJSON` returns a non-nil error with the target still `c0`.
For `null` the error is the invalid-client-type error for the empty string:
`json.Unmarshal` leaves the string empty and the registry lookup rejects
it. -/
theorem UnmarshalJSON_non_string (data : List Nat) (c0 : ClientType)
    (h : firstValueByte data ≠ some 0x22) :
    (∃ e, ClientType.UnmarshalJSON c0 data = .returned (some e, c0)) ∧
      ClientType.UnmarshalJSON c0 [0x6E, 0x75, 0x6C, 0x6C]
        = .returned (some (.invalidClientType []), c0) := by
  refine ⟨?_, ?_⟩
  · rcases jsonUnmarshalString_cases data [] with ⟨e, he⟩ | ⟨hn, _⟩ | ⟨_, rest, hd, _⟩
    · refine ⟨e, ?_⟩
      unfold ClientType.UnmarshalJSON
      rw [he]
    · refine ⟨.invalidClientType [], ?_⟩
      rw [UnmarshalJSON_of_string c0 data [] hn, if_neg (by decide)]
    · exact absurd (by unfold firstValueByte; rw [hd]; rfl) h
  · rw [UnmarshalJSON_of_string c0 _ [] (by decide), if_neg (by decide)]

/-- The numeric tag `1` is rejected and the target keeps the zero value. -/
theorem UnmarshalJSON_non_string_witness :
    firstValueByte [0x31] ≠ some 0x22 ∧
      ((∃ e, ClientType.UnmarshalJSON 0 [0x31] = .returned (some e, 0)) ∧
        ClientType.UnmarshalJSON 0 [0x6E, 0x75, 0x6C, 0x6C]
          = .returned (some (.invalidClientType []), 0)) :=
  ⟨by decide, UnmarshalJSON_non_string [0x31] 0 (by decide)⟩

/-- C10: a successful decode yields a registered type. For every input `data`
and every initial value `c0` of the target, if `UnmarshalJSON` returns a `nil`
error then the target afterwards is `Tendermint`, which is registered and not
zero, and `data` is a JSON string that denotes `tendermint`. -/
theorem UnmarshalJSON_success (data : List Nat) (c0 c : ClientType)
    (h : ClientType.UnmarshalJSON c0 data = .returned (none, c)) :
    c = Tendermint ∧ c ≠ 0 ∧ c ∈ registeredTypes ∧
      jsonStringValue data = some ClientTypeTendermint := by
  rcases jsonUnmarshalString_cases data [] with ⟨e, he⟩ | ⟨hn, _⟩ | ⟨hv, rest, hd, hu⟩
  · unfold ClientType.UnmarshalJSON at h
    rw [he] at h
    simp at h
  · rw [UnmarshalJSON_of_string c0 data [] hn, if_neg (by decide)] at h
    simp at h
  · cases hq : unquoteBytes (0x22 :: rescanString rest) with
    | none =>
      rw [hq] at hu
      unfold ClientType.UnmarshalJSON at h
      rw [hu] at h
      simp at h
    | some s =>
      rw [hq] at hu
      rw [UnmarshalJSON_of_string c0 data s hu] at h
      by_cases hs : s = ClientTypeTendermint
      · rw [if_pos hs] at h
        have hc : c = Tendermint := by
          simp only [Outcome.returned.injEq, Prod.mk.injEq, true_and] at h
          exact h.symm
        subst hc
        refine ⟨rfl, by decide, by decide, ?_⟩
        unfold jsonStringValue
        rw [if_pos hv, hd]
        simp only
        rw [if_pos trivial, hq, hs]
      · rw [if_neg hs] at h
        simp at h

/-- Decoding the quoted word `tendermint` succeeds and sets the target to 1. -/
theorem UnmarshalJSON_success_witness :
    ClientType.UnmarshalJSON 0
        [0x22, 0x74, 0x65, 0x6E, 0x64, 0x65, 0x72, 0x6D, 0x69, 0x6E, 0x74, 0x22]
        = .returned (none, 1) ∧
      (1 = Tendermint ∧ 1 ≠ 0 ∧ 1 ∈ registeredTypes ∧
        jsonStringValue [0x22, 0x74, 0x65, 0x6E, 0x64, 0x65, 0x72, 0x6D, 0x69, 0x6E, 0x74, 0x22]
          = some ClientTypeTendermint) :=
  ⟨by decide, UnmarshalJSON_success _ 0 1 (by decide)⟩

/-- The same proof is accepted for the client when it is not frozen: the
rejection of the frozen client is not a failure of the proof. -/
theorem unfrozen_accepts_valid_proof :
    VerifyPacketCommitment acceptingEnv { frozenClient with frozen := false } 10 [] []
      [0x63] [0x63] 1 [] = .ok () := by
  rfl

/-- C8: a frozen client rejects every verification. For every client state
with `IsFrozen() == true`, each of the seven verification operations returns
the `ClientFrozen` error, for every height, prefix, proof and fact arguments,
whatever the proof verifier would answer. -/
theorem frozen_rejects_verification (env : VerifyEnv) (cs : ClientStateRecord)
    (height : Nat) (pfx proof : List Nat) (clientID connectionID portID channelID : GoString)
    (consensusState : ConsensusStateRecord) (sequence : Nat)
    (value : List Nat) (encodeSeq : Nat → List Nat) (h : cs.IsFrozen = true) :
    VerifyClientConsensusState env cs height pfx proof clientID consensusState
        = .error .ClientFrozen ∧
      VerifyConnectionState env cs height pfx proof connectionID value = .error .ClientFrozen ∧
      VerifyChannelState env cs height pfx proof portID channelID value
        = .error .ClientFrozen ∧
      VerifyPacketCommitment env cs height pfx proof portID channelID sequence value
        = .error .ClientFrozen ∧
      VerifyPacketAcknowledgement env cs height pfx proof portID channelID sequence value
        = .error .ClientFrozen ∧
      VerifyPacketAcknowledgementAbsence env cs height pfx proof portID channelID sequence
        = .error .ClientFrozen ∧
      VerifyNextSequenceRecv env cs height pfx proof portID channelID sequence encodeSeq
        = .error .ClientFrozen := by
  have hv : ∀ fact v, verify env cs height pfx proof fact v = .error .ClientFrozen := by
    intro fact v
    unfold verify
    rw [if_pos h]
  exact ⟨hv _ _, hv _ _, hv _ _, hv _ _, hv _ _, hv _ _, hv _ _⟩

/-- The frozen client rejects every operation in an environment in which
every proof verifies. -/
theorem frozen_rejects_verification_witness :
    frozenClient.IsFrozen = true ∧
      (VerifyClientConsensusState acceptingEnv frozenClient 10 [] [] [0x63]
          { type := Tendermint, root := [1] } = .error .ClientFrozen ∧
        VerifyConnectionState acceptingEnv frozenClient 10 [] [] [0x63] [] = .error .ClientFrozen ∧
        VerifyChannelState acceptingEnv frozenClient 10 [] [] [0x63] [0x63] []
          = .error .ClientFrozen ∧
        VerifyPacketCommitment acceptingEnv frozenClient 10 [] [] [0x63] [0x63] 1 []
          = .error .ClientFrozen ∧
        VerifyPacketAcknowledgement acceptingEnv frozenClient 10 [] [] [0x63] [0x63] 1 []
          = .error .ClientFrozen ∧
        VerifyPacketAcknowledgementAbsence acceptingEnv frozenClient 10 [] [] [0x63] [0x63] 1
          = .error .ClientFrozen ∧
        VerifyNextSequenceRecv acceptingEnv frozenClient 10 [] [] [0x63] [0x63] 1 (fun n => [n])
          = .error .ClientFrozen) :=
  ⟨rfl, frozen_rejects_verification acceptingEnv frozenClient 10 [] [] [0x63] [0x63] [0x63] [0x63]
    { type := Tendermint, root := [1] } 1 [] (fun n => [n]) rfl⟩

/-- What `MarshalJSON` and `UnmarshalJSON` do on a client type that is not
registered: the encoding is the empty JSON string, and decoding it fails. -/
theorem MarshalJSON_unregistered (ct c0 : ClientType) (h : ct ≠ Tendermint) :
    ClientType.MarshalJSON ct = ([0x22, 0x22], none) ∧
      ClientType.UnmarshalJSON c0 (ClientType.MarshalJSON ct).1
        = .returned (some (.invalidClientType []), c0) := by
  have hm : ClientType.MarshalJSON ct = ([0x22, 0x22], none) := by
    unfold ClientType.MarshalJSON ClientType.String
    rw [if_neg h]
    decide
  refine ⟨hm, ?_⟩
  rw [hm, UnmarshalJSON_of_string c0 _ [] (by decide), if_neg (by decide)]

/-- C11: the reverse round trip through the registry. For every string `s`,
if `ClientTypeFromString(s)` is not 0 then `ClientTypeFromString(s).String()`
is `s`; so a string that parses to the same type as an accepted string `s` is
`s` itself: parsing is injective on the accepted names. -/
theorem String_ClientTypeFromString_roundtrip (s s' : GoString)
    (h : ClientTypeFromString s ≠ 0) :
    ClientType.String (ClientTypeFromString s) = s ∧
      (ClientTypeFromString s' = ClientTypeFromString s → s' = s) := by
  unfold ClientTypeFromString at h ⊢
  by_cases hs : s = ClientTypeTendermint
  · subst hs
    refine ⟨by decide, ?_⟩
    by_cases hs' : s' = ClientTypeTendermint
    · intro _; exact hs'
    · rw [if_neg hs', if_pos rfl]
      intro hc
      exact absurd hc (by decide)
  · rw [if_neg hs] at h
    exact absurd rfl h

/-- The reverse round trip at the string `tendermint`, with the capitalised
spelling as the second string. -/
theorem String_ClientTypeFromString_roundtrip_witness :
    ClientTypeFromString ClientTypeTendermint ≠ 0 ∧
      (ClientType.String (ClientTypeFromString ClientTypeTendermint) = ClientTypeTendermint ∧
        (ClientTypeFromString [0x54, 0x65, 0x6E, 0x64, 0x65, 0x72, 0x6D, 0x69, 0x6E, 0x74]
            = ClientTypeFromString ClientTypeTendermint →
          [0x54, 0x65, 0x6E, 0x64, 0x65, 0x72, 0x6D, 0x69, 0x6E, 0x74] = ClientTypeTendermint)) :=
  ⟨by decide, String_ClientTypeFromString_roundtrip ClientTypeTendermint
    [0x54, 0x65, 0x6E, 0x64, 0x65, 0x72, 0x6D, 0x69, 0x6E, 0x74] (by decide)⟩

/-- C12: encoding and decoding are not symmetric on unregistered values. For
every client type `ct` that is not registered (every value other than 1, the
zero value among them) and every initial value `c0` of the target,
`MarshalJSON` returns a `nil` error and the two bytes of the empty JSON
string, and `UnmarshalJSON` on that output returns the invalid-client-type
error with the target still `c0`. So the JSON round trip holds for a type `t`
exactly when `t` is registered. -/
theorem MarshalJSON_UnmarshalJSON_asymmetry (ct c0 : ClientType)
    (h : ct ∉ registeredTypes) :
    ClientType.MarshalJSON ct = ([0x22, 0x22], none) ∧
      ClientType.UnmarshalJSON c0 (ClientType.MarshalJSON ct).1
        = .returned (some (.invalidClientType []), c0) ∧
      ∀ t : ClientType,
        ClientType.UnmarshalJSON c0 (ClientType.MarshalJSON t).1 = .returned (none, t)
          ↔ t ∈ registeredTypes := by
  have hne : ct ≠ Tendermint := by simpa [registeredTypes] using h
  refine ⟨(MarshalJSON_unregistered ct c0 hne).1, (MarshalJSON_unregistered ct c0 hne).2, ?_⟩
  intro t
  by_cases ht : t = Tendermint
  · subst ht
    have : ClientType.UnmarshalJSON c0 (ClientType.MarshalJSON Tendermint).1
        = .returned (none, Tendermint) := by
      rw [UnmarshalJSON_of_string c0 _ ClientTypeTendermint (by decide), if_pos rfl]
    simp [this, registeredTypes]
  · rw [(MarshalJSON_unregistered t c0 ht).2]
    simp [registeredTypes, ht]

/-- The asymmetry at the zero value, into a target that holds `Tendermint`. -/
theorem MarshalJSON_UnmarshalJSON_asymmetry_witness :
    (0 : ClientType) ∉ registeredTypes ∧
      (ClientType.MarshalJSON 0 = ([0x22, 0x22], none) ∧
        ClientType.UnmarshalJSON Tendermint (ClientType.MarshalJSON 0).1
          = .returned (some (.invalidClientType []), Tendermint) ∧
        ∀ t : ClientType,
          ClientType.UnmarshalJSON Tendermint (ClientType.MarshalJSON t).1 = .returned (none, t)
            ↔ t ∈ registeredTypes) :=
  ⟨by decide, MarshalJSON_UnmarshalJSON_asymmetry 0 Tendermint (by decide)⟩

end IBCClient
